import Mathlib

/-! TritonHTTP: a shallow embedding of `pkg/tritonhttp`.

The embedding follows `request.go`, `response.go` and `server.go`.

* A Go `string` / `[]byte` is a list of bytes (`Str`); a byte is a natural number.
  Every function below is total on lists of naturals, so a statement proved for all
  `Str` holds in particular for all byte strings.
* A connection is read through a `Reader`: the bytes that will still arrive, and the
  error the underlying `net.Conn` reports once they are used up.
* The environment of a connection handler (file system, clock, success of the calls
  on the connection) is a `World`; the handler returns the list of `Event`s it performs.
* Loops carry a fuel argument; `none` means the fuel ran out, and the lemmas of the
  section "Fuel" show that the fuel handed out by the entry points is always enough.
-/

namespace TritonHTTP

/-- A Go string: a sequence of bytes. -/
abbrev Str := List Nat

/-- The bytes of an ASCII literal of the source. -/
def bytes (s : String) : Str := s.toList.map Char.toNat

/-! ## Go standard library functions used by the package -/

/-- Worker of `Split`: the piece before the first separator, and the later pieces. -/
def splitAux (sep : Nat) : Str → Str × List Str
  | [] => ([], [])
  | c :: cs =>
    if c = sep then ([], (splitAux sep cs).1 :: (splitAux sep cs).2)
    else (c :: (splitAux sep cs).1, (splitAux sep cs).2)

/-- Go `strings.Split(s, sep)` for a one-byte separator: always at least one piece. -/
def Split (s : Str) (sep : Nat) : List Str :=
  (splitAux sep s).1 :: (splitAux sep s).2

/-- Go `strings.HasPrefix`. -/
def HasPrefix (s p : Str) : Bool := p.isPrefixOf s

/-- UTF-8 encodings of the code points for which Go `unicode.IsSpace` holds:
tab, LF, VT, FF, CR, space, U+0085, U+00A0, U+1680, U+2000..U+200A, U+2028, U+2029,
U+202F, U+205F, U+3000. -/
def spaceEncodings : List Str :=
  [[9], [10], [11], [12], [13], [32], [0xC2, 0x85], [0xC2, 0xA0], [0xE1, 0x9A, 0x80],
   [0xE2, 0x80, 0x80], [0xE2, 0x80, 0x81], [0xE2, 0x80, 0x82], [0xE2, 0x80, 0x83],
   [0xE2, 0x80, 0x84], [0xE2, 0x80, 0x85], [0xE2, 0x80, 0x86], [0xE2, 0x80, 0x87],
   [0xE2, 0x80, 0x88], [0xE2, 0x80, 0x89], [0xE2, 0x80, 0x8A], [0xE2, 0x80, 0xA8],
   [0xE2, 0x80, 0xA9], [0xE2, 0x80, 0xAF], [0xE2, 0x81, 0x9F], [0xE3, 0x80, 0x80]]

/-- Length of the white-space rune that `s` starts with, `0` when it starts with none. -/
def leadingSpace (s : Str) : Nat :=
  match spaceEncodings.find? (fun e => e.isPrefixOf s) with
  | some e => e.length
  | none => 0

/-- Length of the white-space rune that `s` ends with, `0` when it ends with none. -/
def trailingSpace (s : Str) : Nat :=
  match spaceEncodings.find? (fun e => e.reverse.isPrefixOf s.reverse) with
  | some e => e.length
  | none => 0

/-- Drops leading white-space runes, at most `fuel` of them. -/
def trimLeftFuel : Nat → Str → Str
  | 0, s => s
  | fuel + 1, s => if leadingSpace s = 0 then s else trimLeftFuel fuel (s.drop (leadingSpace s))

/-- Drops trailing white-space runes, at most `fuel` of them. -/
def trimRightFuel : Nat → Str → Str
  | 0, s => s
  | fuel + 1, s =>
    if trailingSpace s = 0 then s else trimRightFuel fuel (s.take (s.length - trailingSpace s))

/-- Go `strings.TrimSpace`: leading white space is removed, then trailing white space. -/
def TrimSpace (s : Str) : Str :=
  trimRightFuel (trimLeftFuel s.length s).length (trimLeftFuel s.length s)

/-- Decimal digits of a natural number. -/
def natDigits (n : Nat) : Str := (Nat.toDigits 10 n).map Char.toNat

/-- Go `strconv.Itoa` / `strconv.FormatInt(_, 10)`. -/
def Itoa (i : Int) : Str :=
  if i < 0 then 45 :: natDigits i.natAbs else natDigits i.natAbs

/-- One step of `path.Clean` on the stack of kept elements (top first). -/
def cleanStep (rooted : Bool) (stack : List Str) (elem : Str) : List Str :=
  if elem = [] ∨ elem = bytes "." then stack
  else if elem = bytes ".." then
    match stack with
    | top :: rest => if top = bytes ".." then elem :: stack else rest
    | [] => if rooted then [] else [elem]
  else elem :: stack

/-- The output buffer of `path.Clean` when its loop ends: the root slash of a rooted path,
then the kept elements joined by slashes. -/
def cleanOut (p : Str) : Str :=
  let rooted : Bool := p.head? = some 47
  let stack := (Split p 47).foldl (cleanStep rooted) []
  (if rooted then [47] else []) ++ (stack.reverse.intersperse [47]).flatten

/-- Go `path.Clean`: the shortest path equivalent to `p` by lexical processing, and `.`
when that is the empty string. -/
def Clean (p : Str) : Str :=
  if cleanOut p = [] then bytes "." else cleanOut p

/-- Go `path.Join`: empty leading elements are ignored, the others joined by a slash
and cleaned; the empty string when every element is empty. -/
def Join (elems : List Str) : Str :=
  match elems.dropWhile (fun e => e = []) with
  | [] => []
  | rest => Clean (rest.intersperse [47]).flatten

/-! ## util.go (not among the source files) -/

/-- Errors: the three kinds a read from the connection ends with, and `errors.New`. -/
inductive Err where
  | EOF
  | timeout
  | io
  | new (msg : String)
  deriving DecidableEq, Repr

/-- The buffered reader over a connection: the bytes still to arrive, and the error the
connection reports when they are used up (end of stream, deadline passed, other). -/
structure Reader where
  data : Str
  ending : Err
  deriving DecidableEq, Repr

/-- Splits at the first CRLF: the bytes before it and the bytes after it. -/
def splitCRLF : Str → Option (Str × Str)
  | [] => none
  | c :: rest =>
    if c = 13 ∧ rest.head? = some 10 then some ([], rest.tail)
    else (splitCRLF rest).map (fun p => (c :: p.1, p.2))

/-- Modelled from the spec: `ReadLine` of util.go, absent from the sources. Spec 4.1:
"returns the next line with trailing CRLF stripped, or signals one of: end-of-stream
with zero bytes consumed, end-of-stream with a partial line already consumed, or an
I/O error"; the bytes consumed before the error are returned with it, which is what
`ReadRequest` tests with `len(line) == 0`. -/
def ReadLine (br : Reader) : Str × Option Err × Reader :=
  match splitCRLF br.data with
  | some (line, rest) => (line, none, { br with data := rest })
  | none => (br.data, some br.ending, { br with data := [] })

/-- ASCII upper-casing of one byte. -/
def toUpper (c : Nat) : Nat := if 97 ≤ c ∧ c ≤ 122 then c - 32 else c

/-- ASCII lower-casing of one byte. -/
def toLower (c : Nat) : Nat := if 65 ≤ c ∧ c ≤ 90 then c + 32 else c

/-- Worker of `CanonicalHeaderKey`; `upper` tells whether the next letter is upper-cased. -/
def canonAux : Bool → Str → Str
  | _, [] => []
  | upper, c :: cs => (if upper then toUpper c else toLower c) :: canonAux (c = 45) cs

/-- Modelled from the spec: `CanonicalHeaderKey` of util.go, absent from the sources.
Spec 3: "canonical form (first letter and letters following `-` upper-cased, rest
lower-cased)". -/
def CanonicalHeaderKey (s : Str) : Str := canonAux true s

/-! ## request.go -/

/-- Go `map[string]string`: an association list with distinct keys. -/
abbrev HeaderMap := List (Str × Str)

/-- The map assignment `m[k] = v`. -/
def mapSet : HeaderMap → Str → Str → HeaderMap
  | [], k, v => [(k, v)]
  | (k0, v0) :: m, k, v => if k0 = k then (k, v) :: m else (k0, v0) :: mapSet m k v

/-- The map lookup `m[k]` with its presence flag. -/
def mapGet : HeaderMap → Str → Option Str
  | [], _ => none
  | (k0, v0) :: m, k => if k0 = k then some v0 else mapGet m k

/-- The struct `Request`. -/
structure Request where
  Method : Str := []
  URL : Str := []
  Proto : Str := []
  Header : HeaderMap := []
  Host : Str := []
  Close : Bool := false
  deriving DecidableEq, Repr

/-- What `ReadRequest` returns (`req` is `none` for a nil pointer), and the reader after it. -/
structure ReadResult where
  req : Option Request
  bytesReceived : Bool
  err : Option Err
  br : Reader
  deriving DecidableEq, Repr

/-- The body of the header loop of `ReadRequest` for one header line that is neither an
error nor empty: `none` for a malformed header, else the updated request. -/
def headerStep (req : Request) (line : Str) : Option Request :=
  match Split line 58 with
  | [key, val] =>
    let key := TrimSpace key
    let val := TrimSpace val
    if key = bytes "Host" then some { req with Host := val }
    else if key = bytes "Connection" then
      (if val = bytes "close" then some { req with Close := true }
       else some { req with Close := false })
    else some { req with Header := mapSet req.Header (CanonicalHeaderKey key) val }
  | _ => none

/-- The `for` loop of `ReadRequest` (lines 67-96) and the code after it (lines 98-102). -/
def headerLoop : Nat → Reader → Request → Option ReadResult
  | 0, _, _ => none
  | fuel + 1, br, req =>
    match ReadLine br with
    | (_, some err, br1) => some ⟨none, true, some err, br1⟩
    | (line, none, br1) =>
      if line = [] then
        (if req.Host.length = 0 then some ⟨none, true, some (Err.new "there is no host"), br1⟩
         else some ⟨some req, true, none, br1⟩)
      else
        match headerStep req line with
        | none => some ⟨none, true, some (Err.new "malformed header"), br1⟩
        | some req1 => headerLoop fuel br1 req1

/-- The function `ReadRequest` for a header loop of at most `fuel` rounds. -/
def ReadRequestFuel (fuel : Nat) (br : Reader) : Option ReadResult :=
  match ReadLine br with
  | (line, err, br1) =>
    if line.length = 0 then some ⟨some {}, false, some Err.EOF, br1⟩
    else if err ≠ none then some ⟨none, true, err, br1⟩
    else
      match Split line 32 with
      | [method, url, proto] =>
        if method ≠ bytes "GET" then
          some ⟨none, true, some (Err.new "should be GET method"), br1⟩
        else if !HasPrefix url (bytes "/") then
          some ⟨none, true, some (Err.new "URL should start with /"), br1⟩
        else if proto ≠ bytes "HTTP/1.1" then
          some ⟨none, true, some (Err.new "proto should be HTTP/1.1"), br1⟩
        else headerLoop fuel br1 { Method := method, URL := url, Proto := proto }
      | _ => some ⟨none, true, some (Err.new "request header should contain 3 parts"), br1⟩

/-- The function `ReadRequest`; every header line uses at least two bytes of the reader,
so one round per byte and one more is enough fuel (`ReadRequest_isSome`). -/
def ReadRequest (br : Reader) : Option ReadResult :=
  ReadRequestFuel (br.data.length + 1) br

/-! ## util.go: the time format -/

/-- A calendar time in UTC, as `time.Time` is printed: `weekday` counts from Sunday = 0,
`month` from January = 1. -/
structure Time where
  weekday : Nat
  day : Nat
  month : Nat
  year : Nat
  hour : Nat
  minute : Nat
  second : Nat
  deriving DecidableEq, Repr

/-- Decimal digits of `n`, padded with zeros on the left to `width` digits. -/
def padLeft (width n : Nat) : Str :=
  List.replicate (width - (natDigits n).length) 48 ++ natDigits n

/-- Modelled from the spec: `FormatTime` of util.go, absent from the sources. Spec 6:
"Date/time header values use the fixed HTTP wire format (day-of-week, day month year,
time, `GMT`), e.g. `Mon, 02 Jan 2006 15:04:05 GMT`". -/
def FormatTime (t : Time) : Str :=
  bytes (["Sun", "Mon", "Tue", "Wed", "Thu", "Fri", "Sat"].getD (t.weekday % 7) "")
    ++ bytes ", " ++ padLeft 2 t.day ++ bytes " "
    ++ bytes (["Jan", "Feb", "Mar", "Apr", "May", "Jun", "Jul", "Aug", "Sep", "Oct", "Nov",
        "Dec"].getD ((t.month - 1) % 12) "")
    ++ bytes " " ++ padLeft 4 t.year ++ bytes " " ++ padLeft 2 t.hour ++ bytes ":"
    ++ padLeft 2 t.minute ++ bytes ":" ++ padLeft 2 t.second ++ bytes " GMT"

/-! ## The environment of the server -/

/-- What `os.Stat` returns: the error satisfies `os.IsNotExist`, another error, or the
`FileInfo` (`IsDir`, `Size`, `ModTime`). -/
inductive StatResult where
  | notExist
  | otherErr
  | info (isDir : Bool) (size : Nat) (modTime : Time)
  deriving DecidableEq, Repr

/-- The environment: the file system (`os.Stat`, `os.ReadFile`; `none` is an error), the
clock (`Now n` is the value of the call of `time.Now` number `n` on the connection),
`MIMETypeByExtension` of util.go (its table is not among the sources), whether
`conn.SetReadDeadline` succeeds at the clock reading number `n`, and whether the call
of `conn.Write` number `n` succeeds. -/
structure World where
  Stat : Str → StatResult
  ReadFile : Str → Option Str
  Now : Nat → Time
  MIMETypeByExtension : Str → Str
  SetReadDeadline : Nat → Bool
  Write : Nat → Bool

/-! ## response.go -/

/-- The struct `Response`. -/
structure Response where
  StatusCode : Int := 0
  Proto : Str := []
  Header : HeaderMap := []
  Request : Option Request := none
  FilePath : Str := []
  deriving DecidableEq, Repr

/-- The effect of a piece of code on the writer `w`: the byte slices accepted by `w.Write`
in order, the number of calls of `w.Write` made so far, and the returned error. -/
structure WriteResult where
  out : List Str
  calls : Nat
  err : Option Err
  deriving DecidableEq, Repr

/-- One call `w.Write(b)`, the call number `n` on the connection. -/
def connWrite (accept : Nat → Bool) (n : Nat) (b : Str) : WriteResult :=
  if accept n then ⟨[b], n + 1, none⟩ else ⟨[], n + 1, some Err.io⟩

/-- Replaces the error of a failed write by `errors.New(msg)`. -/
def WriteResult.orErr (r : WriteResult) (msg : String) : WriteResult :=
  if r.err ≠ none then { r with err := some (Err.new msg) } else r

/-- The method `Response.WriteStatusLine`. -/
def Response.WriteStatusLine (res : Response) (accept : Nat → Bool) (n : Nat) : WriteResult :=
  if res.StatusCode = 200 then
    (connWrite accept n (res.Proto ++ bytes " " ++ Itoa res.StatusCode ++ bytes " OK\r\n")).orErr
      "200 write failed"
  else if res.StatusCode = 400 then
    (connWrite accept n
      (res.Proto ++ bytes " " ++ Itoa res.StatusCode ++ bytes " Bad Request\r\n")).orErr
      "400 write failed"
  else if res.StatusCode = 404 then
    (connWrite accept n
      (res.Proto ++ bytes " " ++ Itoa res.StatusCode ++ bytes " Not Found\r\n")).orErr
      "404 write failed"
  else ⟨[], n, some (Err.new "not the code")⟩

/-- The order of Go strings, `a <= b`: byte-wise lexicographic. -/
def strLe : Str → Str → Bool
  | [], _ => true
  | _ :: _, [] => false
  | a :: as, b :: bs => if a < b then true else if b < a then false else strLe as bs

/-- Go `sort.Strings`. -/
def sortStrings (keys : List Str) : List Str :=
  keys.insertionSort (fun a b => strLe a b = true)

/-- The `for _, k := range keys` loop of `WriteSortedHeaders`. -/
def writeHeaderLines (h : HeaderMap) (accept : Nat → Bool) : List Str → Nat → WriteResult
  | [], n => ⟨[], n, none⟩
  | k :: ks, n =>
    let r := connWrite accept n (k ++ bytes ": " ++ (mapGet h k).getD [] ++ bytes "\r\n")
    if r.err ≠ none then { r with err := some (Err.new "failing wrtie sorted header") }
    else
      let r2 := writeHeaderLines h accept ks r.calls
      ⟨r.out ++ r2.out, r2.calls, r2.err⟩

/-- The method `Response.WriteSortedHeaders`. -/
def Response.WriteSortedHeaders (res : Response) (accept : Nat → Bool) (n : Nat) :
    WriteResult :=
  let keys := sortStrings (res.Header.map Prod.fst)
  let r := writeHeaderLines res.Header accept keys n
  if r.err ≠ none then r
  else
    let r2 := (connWrite accept r.calls (bytes "\r\n")).orErr "failing write header end"
    ⟨r.out ++ r2.out, r2.calls, r2.err⟩

/-- The method `Response.WriteBody`. -/
def Response.WriteBody (res : Response) (readFile : Str → Option Str) (accept : Nat → Bool)
    (n : Nat) : WriteResult :=
  if res.FilePath = [] then ⟨[], n, none⟩
  else
    match readFile res.FilePath with
    | none => ⟨[], n, some (Err.new "failing to open file")⟩
    | some file => (connWrite accept n file).orErr "failing to write file"

/-- The method `Response.Write`. -/
def Response.Write (res : Response) (readFile : Str → Option Str) (accept : Nat → Bool)
    (n : Nat) : WriteResult :=
  let r1 := res.WriteStatusLine accept n
  if r1.err ≠ none then r1
  else
    let r2 := res.WriteSortedHeaders accept r1.calls
    if r2.err ≠ none then ⟨r1.out ++ r2.out, r2.calls, r2.err⟩
    else
      let r3 := res.WriteBody readFile accept r2.calls
      ⟨r1.out ++ r2.out ++ r3.out, r3.calls, r3.err⟩

/-! ## server.go -/

/-- The struct `Server`. -/
structure Server where
  Addr : Str := []
  DocRoot : Str := []
  deriving DecidableEq, Repr

/-- How a handler stops without returning: `log.Fatal` (the process exits) or a run-time
panic (index out of range, nil dereference). -/
inductive Crash where
  | fatal
  | panic
  deriving DecidableEq, Repr

/-- The method `Response.HandleOK`; `now` is the value of its call of `time.Now`. -/
def Response.HandleOK (res : Response) (w : World) (now : Time)
    (req : TritonHTTP.Request) (path : Str) : Except Crash Response :=
  let header : HeaderMap := mapSet [] (bytes "Date") (FormatTime now)
  match w.Stat path with
  | StatResult.info _ size modTime =>
    let header := mapSet header (bytes "Last-Modified") (FormatTime modTime)
    let ext := Split path 46
    let header := mapSet header (bytes "Content-Type")
      (w.MIMETypeByExtension (bytes "." ++ ext.getLastD []))
    let header := mapSet header (bytes "Content-Length") (Itoa (Int.ofNat size))
    let header := if req.Close then mapSet header (bytes "Connection") (bytes "close") else header
    Except.ok { res with StatusCode := 200, FilePath := path, Header := header }
  | _ => Except.error Crash.fatal

/-- The method `Response.HandleBadRequest`; `now` is the value of its call of `time.Now`. -/
def Response.HandleBadRequest (res : Response) (now : Time) : Response :=
  let header : HeaderMap := mapSet [] (bytes "Date") (FormatTime now)
  let header := mapSet header (bytes "Connection") (bytes "close")
  { res with Proto := bytes "HTTP/1.1", StatusCode := 400, Header := header }

/-- The method `Response.HandleNotFound`; `now` is the value of its call of `time.Now`. -/
def Response.HandleNotFound (res : Response) (now : Time) (req : TritonHTTP.Request) :
    Response :=
  let header : HeaderMap := mapSet [] (bytes "Date") (FormatTime now)
  let header := if req.Close then mapSet header (bytes "Connection") (bytes "close") else header
  { res with StatusCode := 404, Header := header }

/-- The method `Server.HandleGoodRequest`; `now` is the value of the call of `time.Now`
made by the response builder. Indexing an empty `req.URL` panics. -/
def Server.HandleGoodRequest (s : Server) (w : World) (now : Time) (req : Request) :
    Except Crash Response :=
  match req.URL.getLast? with
  | none => Except.error Crash.panic
  | some last =>
    let req := if last = 47 then { req with URL := req.URL ++ bytes "index.html" } else req
    let filePath := Join [s.DocRoot, req.URL]
    let res : Response := {}
    let built : Except Crash Response :=
      match w.Stat filePath with
      | StatResult.notExist => Except.ok (res.HandleNotFound now req)
      | StatResult.otherErr => Except.error Crash.fatal
      | StatResult.info isDir _ _ =>
        if isDir then Except.ok (res.HandleNotFound now req)
        else res.HandleOK w now req filePath
    built.map (fun res => { res with Proto := req.Proto })

/-- What a connection handler does, in order. -/
inductive Event where
  | read
  | write (b : Str)
  | close
  | exit
  | panic
  deriving DecidableEq, Repr

/-- The state of a connection between two rounds of the handler's loop: its reader, and
the numbers of calls of `time.Now` and of `conn.Write` made so far. -/
structure Conn where
  br : Reader
  ticks : Nat := 0
  writes : Nat := 0
  deriving DecidableEq, Repr

/-- The four lines `res := &Response{}; res.HandleBadRequest(); _ = res.Write(conn);
_ = conn.Close()` of `HandleConnection`. -/
def respondBadRequest (w : World) (c : Conn) : List Event :=
  let res := ({} : Response).HandleBadRequest (w.Now c.ticks)
  ((res.Write w.ReadFile w.Write c.writes).out.map Event.write) ++ [Event.close]

/-- The loop of `Server.HandleConnection`, at most `fuel` rounds. -/
def handleLoop (s : Server) (w : World) : Nat → Conn → Option (List Event)
  | 0, _ => none
  | fuel + 1, c =>
    if !w.SetReadDeadline c.ticks then some [Event.close]
    else
      let c := { c with ticks := c.ticks + 1 }
      match ReadRequest c.br with
      | none => none
      | some r =>
        if r.err = some Err.EOF then
          (if r.bytesReceived then some (Event.read :: respondBadRequest w c)
           else some [Event.read, Event.close])
        else if r.err = some Err.timeout then
          (if r.bytesReceived then some (Event.read :: respondBadRequest w c)
           else some [Event.read, Event.close])
        else if r.err ≠ none then some (Event.read :: respondBadRequest w c)
        else
          match r.req with
          | none => some [Event.read, Event.panic]
          | some req =>
            if req.URL = [] then some [Event.read, Event.panic]
            else if req.URL.take 1 ≠ bytes "/" then some (Event.read :: respondBadRequest w c)
            else
              match s.HandleGoodRequest w (w.Now c.ticks) req with
              | Except.error Crash.fatal => some [Event.read, Event.exit]
              | Except.error Crash.panic => some [Event.read, Event.panic]
              | Except.ok res =>
                let wr := res.Write w.ReadFile w.Write c.writes
                (handleLoop s w fuel
                  { br := r.br, ticks := c.ticks + 1, writes := wr.calls }).map
                  (fun rest => Event.read :: (wr.out.map Event.write ++ rest))

/-- The method `Server.HandleConnection` on a freshly accepted connection; every round
that does not stop uses at least one byte of the reader, so one round per byte and one
more is enough fuel (`HandleConnection_isSome`). -/
def Server.HandleConnection (s : Server) (w : World) (br : Reader) : Option (List Event) :=
  handleLoop s w (br.data.length + 1) { br := br }

/-- The bytes a run has written to the connection. -/
def written : List Event → Str
  | [] => []
  | Event.write b :: es => b ++ written es
  | _ :: es => written es

/-! ## Requests as text

The vocabulary in which the statements below describe the bytes of a request:
lines followed by CRLF, and the name and value of a header line. -/

/-- The bytes of a sequence of lines, each one followed by CRLF. -/
def encodeLines (ls : List Str) : Str := (ls.map (fun l => l ++ [13, 10])).flatten

/-- The name of a header line `Name: Value`: what stands before the first colon, without
the white space around it. -/
def headerName (h : Str) : Str := TrimSpace (h.takeWhile (fun c => c ≠ 58))

/-- The value of a header line `Name: Value`: what stands after the first colon, without
the white space around it. -/
def headerValue (h : Str) : Str := TrimSpace ((h.dropWhile (fun c => c ≠ 58)).drop 1)

/-- The value of the last header line of the block that has the given name. -/
def lastHeader (name : Str) (hs : List Str) : Option Str :=
  ((hs.filter (fun h => headerName h = name)).getLast?).map headerValue

/-- The request line `GET <target> HTTP/1.1`, without its CRLF. -/
def requestLine (target : Str) : Str := bytes "GET " ++ target ++ bytes " HTTP/1.1"

/-- The bytes of a request: the request line `GET <target> HTTP/1.1`, the header lines
and the empty line, each followed by CRLF. -/
def requestBytes (target : Str) (hs : List Str) : Str :=
  requestLine target ++ [13, 10] ++ encodeLines hs ++ [13, 10]

/-- The path that `HandleGoodRequest` looks up for a target: `index.html` is appended to
a target that ends in a slash, and the result is joined to the document root. -/
def resolvedPath (s : Server) (target : Str) : Str :=
  Join [s.DocRoot, if target.getLast? = some 47 then target ++ bytes "index.html" else target]

/-- The byte slices of the response `400 Bad Request` built at the time `now`. -/
def badRequestChunks (now : Time) : List Str :=
  [bytes "HTTP/1.1 400 Bad Request\r\n", bytes "Connection: close\r\n",
   bytes "Date: " ++ FormatTime now ++ bytes "\r\n", bytes "\r\n"]

/-- The header lines of a response `404 Not Found` built at the time `now`. -/
def notFoundHeaderLines (close : Bool) (now : Time) : List Str :=
  (if close then [bytes "Connection: close\r\n"] else []) ++
    [bytes "Date: " ++ FormatTime now ++ bytes "\r\n"]

/-- The header lines of a response `200 OK` built at the time `now` for a file of the
given size, modification time and content type. -/
def okHeaderLines (close : Bool) (size : Nat) (mime : Str) (now modTime : Time) : List Str :=
  (if close then [bytes "Connection: close\r\n"] else []) ++
    [bytes "Content-Length: " ++ natDigits size ++ bytes "\r\n",
     bytes "Content-Type: " ++ mime ++ bytes "\r\n",
     bytes "Date: " ++ FormatTime now ++ bytes "\r\n",
     bytes "Last-Modified: " ++ FormatTime modTime ++ bytes "\r\n"]

/-- The header loop's request after the given header lines, `none` when one of them is
malformed: `headerStep` folded over the lines. -/
def foldHeaders (req : Request) : List Str → Option Request
  | [] => some req
  | h :: hs =>
    match headerStep req h with
    | none => none
    | some req1 => foldHeaders req1 hs

/-! ## A concrete environment -/

/-- Monday 2 January 2006, 15:04:05. -/
def exampleTime : Time := ⟨1, 2, 1, 2006, 15, 4, 5⟩

/-- A server with the document root `root`. -/
def exampleServer : Server := { DocRoot := bytes "root" }

/-- An environment in which `root` holds the file `index.html` with the content
`0123456789` and the directory `docs`, every clock reading is `exampleTime`, and the
deadline calls and the writes succeed. -/
def exampleWorld : World where
  Stat := fun p =>
    if p = bytes "root/index.html" then StatResult.info false 10 exampleTime
    else if p = bytes "root" ∨ p = bytes "root/docs" then StatResult.info true 4096 exampleTime
    else StatResult.notExist
  ReadFile := fun p => if p = bytes "root/index.html" then some (bytes "0123456789") else none
  Now := fun _ => exampleTime
  MIMETypeByExtension := fun ext =>
    if ext = bytes ".html" then bytes "text/html; charset=utf-8"
    else bytes "application/octet-stream"
  SetReadDeadline := fun _ => true
  Write := fun _ => true

/-! ## Header blocks as text -/

/-- The header-line grammar of the loop of `ReadRequest` (lines 75-83): the line is split
on the colon into exactly two parts, and both are trimmed. -/
def parseHeaderLine (line : Str) : Option (Str × Str) :=
  match Split line 58 with
  | [key, val] => some (TrimSpace key, TrimSpace val)
  | _ => none

/-- The lines of a header block, up to the empty line: every line ends with CRLF. -/
def blockLines : Nat → Str → Option (List Str)
  | 0, _ => none
  | fuel + 1, d =>
    match splitCRLF d with
    | none => none
    | some (line, rest) =>
      if line = [] then some [] else (blockLines fuel rest).map (fun ls => line :: ls)

/-- Every line of a list parsed with the header-line grammar, `none` when one is rejected. -/
def parseLines : List Str → Option (List (Str × Str))
  | [] => some []
  | l :: ls =>
    match parseHeaderLine l, parseLines ls with
    | some p, some ps => some (p :: ps)
    | _, _ => none

/-- The key/value pairs read back from the bytes of a header block. -/
def reparseHeaders (d : Str) : Option (List (Str × Str)) :=
  (blockLines (d.length + 1) d).bind parseLines

/-- The header line written for the key `k` of the map `m`, without its CRLF. -/
def headerLine (m : HeaderMap) (k : Str) : Str :=
  k ++ bytes ": " ++ (mapGet m k).getD []

/-- The map built from the empty map by the assignments `m[k] = v` in the given order. -/
def mapOfList (ps : List (Str × Str)) : HeaderMap :=
  ps.foldl (fun m p => mapSet m p.1 p.2) []

/-- The strict order of Go strings, `a < b`. -/
def strLt (a b : Str) : Prop := strLe a b = true ∧ a ≠ b

/-- The concrete environment with a file `root/private.html` on which `os.Stat` fails
with a permission error. -/
def deniedWorld : World where
  Stat := fun p =>
    if p = bytes "root/private.html" then StatResult.otherErr else exampleWorld.Stat p
  ReadFile := exampleWorld.ReadFile
  Now := exampleWorld.Now
  MIMETypeByExtension := exampleWorld.MIMETypeByExtension
  SetReadDeadline := exampleWorld.SetReadDeadline
  Write := exampleWorld.Write

/-- The concrete environment on a connection that rejects every write. -/
def brokenWorld : World where
  Stat := exampleWorld.Stat
  ReadFile := exampleWorld.ReadFile
  Now := exampleWorld.Now
  MIMETypeByExtension := exampleWorld.MIMETypeByExtension
  SetReadDeadline := exampleWorld.SetReadDeadline
  Write := fun _ => false

/-- The concrete environment with a file `secret.txt` beside the document root `root`. -/
def outsideWorld : World where
  Stat := fun p =>
    if p = bytes "secret.txt" then StatResult.info false 6 exampleTime else exampleWorld.Stat p
  ReadFile := fun p =>
    if p = bytes "secret.txt" then some (bytes "secret") else exampleWorld.ReadFile p
  Now := exampleWorld.Now
  MIMETypeByExtension := exampleWorld.MIMETypeByExtension
  SetReadDeadline := exampleWorld.SetReadDeadline
  Write := exampleWorld.Write

/-! ## Lemmas on the library functions -/

theorem splitAux_length (sep : Nat) (s : Str) : (splitAux sep s).2.length = s.count sep := by
  induction s with
  | nil => simp [splitAux]
  | cons c cs ih =>
    by_cases h : c = sep
    · subst h; simp [splitAux, ih]
    · have h2 : ¬ (c == sep) = true := by simpa using h
      simp [splitAux, h, ih, List.count_cons, h2]

theorem Split_length (s : Str) (sep : Nat) : (Split s sep).length = s.count sep + 1 := by
  simp [Split, splitAux_length]

theorem Split_join (s : Str) (sep : Nat) :
    ((Split s sep).intersperse [sep]).flatten = s := by
  induction s with
  | nil => simp [Split, splitAux]
  | cons c cs ih =>
    by_cases h : c = sep
    · subst h
      simp only [Split] at ih
      simp [Split, splitAux, ih]
    · simp only [Split] at ih
      simp only [Split, splitAux, h, if_false]
      cases h2 : (splitAux sep cs).2 with
      | nil => rw [h2] at ih; simpa using ih
      | cons x xs => rw [h2] at ih; simpa using ih

theorem splitCRLF_append (l rest : Str) (h : splitCRLF l = none) :
    splitCRLF (l ++ 13 :: 10 :: rest) = some (l, rest) := by
  induction l with
  | nil => simp [splitCRLF]
  | cons c cs ih =>
    simp only [splitCRLF] at h
    split at h
    · simp at h
    · rename_i hc
      have h2 : splitCRLF cs = none := by simpa using h
      have hc2 : ¬ (c = 13 ∧ (cs ++ 13 :: 10 :: rest).head? = some 10) := by
        intro hh
        apply hc
        refine ⟨hh.1, ?_⟩
        cases cs with
        | nil => simp at hh
        | cons d ds => simpa using hh.2
      rw [List.cons_append, splitCRLF, if_neg hc2, ih h2]
      rfl

theorem splitCRLF_length (d l r : Str) (h : splitCRLF d = some (l, r)) :
    l.length + 2 + r.length = d.length := by
  induction d generalizing l with
  | nil => simp [splitCRLF] at h
  | cons c cs ih =>
    simp only [splitCRLF] at h
    split at h
    · rename_i hc
      cases cs with
      | nil => simp at hc
      | cons d ds =>
        simp at h
        obtain ⟨rfl, rfl⟩ := h
        simp
        omega
    · cases h2 : splitCRLF cs with
      | none => rw [h2] at h; simp at h
      | some p =>
        obtain ⟨l1, r1⟩ := p
        rw [h2] at h
        simp at h
        obtain ⟨rfl, rfl⟩ := h
        have := ih l1 h2
        simp
        omega

theorem ReadLine_line (br : Reader) (l rest : Str) (hl : splitCRLF l = none)
    (hd : br.data = l ++ 13 :: 10 :: rest) :
    ReadLine br = (l, none, { br with data := rest }) := by
  simp [ReadLine, hd, splitCRLF_append l rest hl]

theorem ReadLine_end (br : Reader) (h : splitCRLF br.data = none) :
    ReadLine br = (br.data, some br.ending, { br with data := [] }) := by
  simp [ReadLine, h]

/-! ## Fuel -/

theorem headerStep_fields (req req1 : Request) (line : Str)
    (h : headerStep req line = some req1) :
    req1.Method = req.Method ∧ req1.URL = req.URL ∧ req1.Proto = req.Proto := by
  unfold headerStep at h
  split at h
  · simp only at h
    split_ifs at h <;> (simp at h; subst h; simp)
  · simp at h

/-- The header loop returns for every reader with fewer bytes than fuel; it reports
received bytes, an error comes with a nil request, and a request comes with a shorter
reader, the request line of the start and a non-empty host. -/
theorem headerLoop_spec (fuel : Nat) (br : Reader) (req : Request)
    (hf : br.data.length < fuel) :
    ∃ r, headerLoop fuel br req = some r ∧ r.bytesReceived = true ∧
      (r.err ≠ none → r.req = none) ∧
      (r.err = none → r.br.data.length + 2 ≤ br.data.length ∧
        ∃ rq, r.req = some rq ∧ rq.Method = req.Method ∧ rq.URL = req.URL ∧
          rq.Proto = req.Proto ∧ rq.Host ≠ []) := by
  induction fuel generalizing br req with
  | zero => omega
  | succ fuel ih =>
    unfold headerLoop
    cases hs : splitCRLF br.data with
    | none => simp [ReadLine, hs]
    | some p =>
      obtain ⟨line, rest⟩ := p
      have hlen := splitCRLF_length _ _ _ hs
      simp only [ReadLine, hs]
      by_cases hl : line = []
      · subst hl
        by_cases hh : req.Host.length = 0
        · simp [hh]
        · have : req.Host ≠ [] := by
            intro h0; apply hh; simp [h0]
          simp [hh, this]
          simp at hlen
          omega
      · simp only [hl, if_false]
        cases hst : headerStep req line with
        | none => simp
        | some req1 =>
          simp only
          obtain ⟨r, hr, hb, he, hn⟩ := ih { br with data := rest } req1 (by simp; omega)
          obtain ⟨hm, hu, hp⟩ := headerStep_fields req req1 line hst
          refine ⟨r, hr, hb, he, ?_⟩
          intro hnone
          obtain ⟨h1, rq, h2, h3, h4, h5, h6⟩ := hn hnone
          refine ⟨?_, rq, h2, by rw [h3, hm], by rw [h4, hu], by rw [h5, hp], h6⟩
          simp at h1
          omega

theorem ReadLine_length (br : Reader) :
    (ReadLine br).2.2.data.length ≤ br.data.length ∧
    ((ReadLine br).2.1 = none →
      (ReadLine br).1.length + 2 + (ReadLine br).2.2.data.length = br.data.length) := by
  unfold ReadLine
  cases hs : splitCRLF br.data with
  | none => simp
  | some p =>
    obtain ⟨line, rest⟩ := p
    have := splitCRLF_length _ _ _ hs
    simp
    omega

/-- `ReadRequest` returns for every reader; when the error is nil, bytes were received,
the reader got shorter and the request is valid and spells the first line read. -/
theorem ReadRequest_spec (br : Reader) :
    ∃ r, ReadRequest br = some r ∧
      (r.err = none → r.bytesReceived = true ∧ r.br.data.length < br.data.length ∧
        ∃ rq, r.req = some rq ∧ rq.Method = bytes "GET" ∧
          HasPrefix rq.URL (bytes "/") = true ∧ rq.Proto = bytes "HTTP/1.1" ∧ rq.Host ≠ [] ∧
          (ReadLine br).1 = rq.Method ++ bytes " " ++ rq.URL ++ bytes " " ++ rq.Proto) := by
  unfold ReadRequest ReadRequestFuel
  obtain ⟨hle, hlen⟩ := ReadLine_length br
  rcases hrl : ReadLine br with ⟨line, err, br1⟩
  rw [hrl] at hle hlen
  simp only at hle hlen ⊢
  by_cases h0 : line.length = 0
  · rw [if_pos h0]
    exact ⟨_, rfl, fun h => by simp at h⟩
  rw [if_neg h0]
  by_cases he : err ≠ none
  · rw [if_pos he]
    exact ⟨_, rfl, fun h => absurd h he⟩
  rw [if_neg he]
  have he2 : err = none := by simpa using he
  have hlen2 := hlen he2
  split
  · rename_i method url proto hsplit
    by_cases hm : method ≠ bytes "GET"
    · rw [if_pos hm]
      exact ⟨_, rfl, fun h => by simp at h⟩
    rw [if_neg hm]
    have hm2 : method = bytes "GET" := by simpa using hm
    by_cases hu : (!HasPrefix url (bytes "/")) = true
    · rw [if_pos hu]
      exact ⟨_, rfl, fun h => by simp at h⟩
    rw [if_neg hu]
    have hu2 : HasPrefix url (bytes "/") = true := by simpa using hu
    by_cases hp : proto ≠ bytes "HTTP/1.1"
    · rw [if_pos hp]
      exact ⟨_, rfl, fun h => by simp at h⟩
    rw [if_neg hp]
    have hp2 : proto = bytes "HTTP/1.1" := by simpa using hp
    obtain ⟨r, hr, hb, _, hn⟩ := headerLoop_spec (br.data.length + 1) br1
      { Method := method, URL := url, Proto := proto } (by omega)
    refine ⟨r, hr, ?_⟩
    intro hnone
    obtain ⟨h1, rq, h2, h3, h4, h5, h6⟩ := hn hnone
    refine ⟨hb, by omega, rq, h2, ?_, ?_, ?_, h6, ?_⟩
    · rw [h3]; exact hm2
    · rw [h4]; exact hu2
    · rw [h5]; exact hp2
    · have hj := Split_join line 32
      rw [hsplit] at hj
      rw [h3, h4, h5]
      simp only [bytes]
      simpa using hj.symm
  · exact ⟨_, rfl, fun h => by simp at h⟩

/-- The fuel of `ReadRequest` is enough. -/
theorem ReadRequest_isSome (br : Reader) : (ReadRequest br).isSome = true := by
  obtain ⟨r, hr, _⟩ := ReadRequest_spec br
  simp [hr]

/-- The loop of the handler returns for every connection with fewer bytes than fuel. -/
theorem handleLoop_isSome (s : Server) (w : World) (fuel : Nat) (c : Conn)
    (hf : c.br.data.length < fuel) : (handleLoop s w fuel c).isSome = true := by
  induction fuel generalizing c with
  | zero => omega
  | succ fuel ih =>
    unfold handleLoop
    obtain ⟨r, hr, hspec⟩ := ReadRequest_spec c.br
    simp only [hr]
    split_ifs with h1 h2 h3 h4 h5 h6
    all_goals try rfl
    have hnone : r.err = none := by simpa using h6
    obtain ⟨_, hlt, _⟩ := hspec hnone
    split
    · rfl
    · split_ifs
      · rfl
      · rfl
      · split
        · rfl
        · rfl
        · rw [Option.isSome_map']
          apply ih
          show r.br.data.length < fuel
          omega

/-- The fuel of `HandleConnection` is enough. -/
theorem HandleConnection_isSome (s : Server) (w : World) (br : Reader) :
    (s.HandleConnection w br).isSome = true :=
  handleLoop_isSome s w _ _ (by simp)

/-! ## Parsing a request given as lines -/

theorem splitAux_not_mem (sep : Nat) (a : Str) (h : sep ∉ a) : splitAux sep a = (a, []) := by
  induction a with
  | nil => rfl
  | cons c cs ih =>
    have hc : c ≠ sep := fun hh => h (by simp [hh])
    have hcs : sep ∉ cs := fun hh => h (by simp [hh])
    simp [splitAux, hc, ih hcs]

theorem splitAux_append (sep : Nat) (a b : Str) (h : sep ∉ a) :
    splitAux sep (a ++ sep :: b) = (a, Split b sep) := by
  induction a with
  | nil => simp [splitAux, Split]
  | cons c cs ih =>
    have hc : c ≠ sep := fun hh => h (by simp [hh])
    have hcs : sep ∉ cs := fun hh => h (by simp [hh])
    simp [splitAux, hc, ih hcs]

theorem Split_requestLine (target : Str) (h : 32 ∉ target) :
    Split (requestLine target) 32 = [bytes "GET", target, bytes "HTTP/1.1"] := by
  unfold requestLine
  have h1 : bytes "GET " ++ target ++ bytes " HTTP/1.1"
      = bytes "GET" ++ 32 :: (target ++ 32 :: bytes "HTTP/1.1") := by
    simp [bytes]
  have h2 : (32 : Nat) ∉ bytes "GET" := by decide
  have h3 : (32 : Nat) ∉ bytes "HTTP/1.1" := by decide
  rw [h1, Split, splitAux_append 32 _ _ h2, Split, splitAux_append 32 _ _ h,
    Split, splitAux_not_mem 32 _ h3]

theorem splitCRLF_none_append (a b : Str) (ha : splitCRLF a = none) (hb : splitCRLF b = none)
    (hab : a.getLast? ≠ some 13 ∨ b.head? ≠ some 10) : splitCRLF (a ++ b) = none := by
  induction a with
  | nil => simpa using hb
  | cons c cs ih =>
    simp only [splitCRLF] at ha
    split at ha
    · simp at ha
    · rename_i hc
      have h2 : splitCRLF cs = none := by simpa using ha
      cases cs with
      | nil =>
        have hc2 : ¬ (c = 13 ∧ b.head? = some 10) := by
          intro hh
          rcases hab with h | h
          · simp [hh.1] at h
          · exact h hh.2
        simp [splitCRLF, hc2, hb]
      | cons d ds =>
        have hab2 : (d :: ds).getLast? ≠ some 13 ∨ b.head? ≠ some 10 := by
          rcases hab with h | h
          · left; simpa [List.getLast?_cons_cons] using h
          · right; exact h
        have hc2 : ¬ (c = 13 ∧ (d :: ds ++ b).head? = some 10) := by simpa using hc
        rw [List.cons_append, splitCRLF, if_neg hc2, ih h2 hab2]
        rfl

theorem splitCRLF_requestLine (target : Str) (h : splitCRLF target = none) :
    splitCRLF (requestLine target) = none := by
  unfold requestLine
  rw [List.append_assoc]
  apply splitCRLF_none_append
  · decide
  · apply splitCRLF_none_append _ _ h
    · decide
    · right; decide
  · left; decide

theorem Split_colon (h : Str) (h1 : h.count 58 = 1) :
    Split h 58 = [h.takeWhile (fun c => c ≠ 58), (h.dropWhile (fun c => c ≠ 58)).drop 1] := by
  induction h with
  | nil => simp at h1
  | cons c cs ih =>
    by_cases hc : c = 58
    · subst hc
      have h0 : (58 : Nat) ∉ cs := by
        intro hh
        have := List.count_pos_iff.mpr hh
        simp at h1
        omega
      simp [Split, splitAux, splitAux_not_mem 58 cs h0]
    · have hc2 : ¬ (c == 58) = true := by simpa using hc
      have h2 : cs.count 58 = 1 := by simpa [List.count_cons, hc2] using h1
      have := ih h2
      simp only [Split, List.cons.injEq] at this
      simp [Split, splitAux, hc, this.1, this.2]

theorem headerStep_one_colon (req : Request) (h : Str) (h1 : h.count 58 = 1) :
    headerStep req h = some
      (if headerName h = bytes "Host" then { req with Host := headerValue h }
       else if headerName h = bytes "Connection" then
         { req with Close := decide (headerValue h = bytes "close") }
       else { req with
         Header := mapSet req.Header (CanonicalHeaderKey (headerName h)) (headerValue h) }) := by
  unfold headerStep
  rw [Split_colon h h1]
  simp only [headerName, headerValue]
  split_ifs <;> simp_all

theorem headerStep_eq_none (req : Request) (h : Str) (h1 : h.count 58 ≠ 1) :
    headerStep req h = none := by
  unfold headerStep
  split
  · rename_i key val heq
    have := Split_length h 58
    rw [heq] at this
    simp at this
    omega
  · rfl

theorem getLast?_cons_match {α : Type} (a : α) (l : List α) :
    (a :: l).getLast? = match l.getLast? with
      | some v => some v
      | none => some a := by
  cases l with
  | nil => rfl
  | cons x xs =>
    rw [List.getLast?_cons_cons]
    cases hx : (x :: xs).getLast? with
    | none => simp at hx
    | some v => rfl

theorem lastHeader_cons (name h : Str) (hs : List Str) :
    lastHeader name (h :: hs) =
      match lastHeader name hs with
      | some v => some v
      | none => if headerName h = name then some (headerValue h) else none := by
  unfold lastHeader
  by_cases hn : headerName h = name
  · rw [List.filter_cons_of_pos (by simpa using hn), getLast?_cons_match]
    cases (hs.filter (fun h => decide (headerName h = name))).getLast? <;> simp [hn]
  · rw [List.filter_cons_of_neg (by simpa using hn)]
    cases (hs.filter (fun h => decide (headerName h = name))).getLast? <;> simp [hn]

theorem headerStep_one_colon_fields (req : Request) (h : Str) (h1 : h.count 58 = 1) :
    ∃ req1, headerStep req h = some req1 ∧
      req1.Host = (if headerName h = bytes "Host" then headerValue h else req.Host) ∧
      req1.Close = (if headerName h = bytes "Connection" then
        decide (headerValue h = bytes "close") else req.Close) ∧
      req1.Method = req.Method ∧ req1.URL = req.URL ∧ req1.Proto = req.Proto := by
  refine ⟨_, headerStep_one_colon req h h1, ?_, ?_, ?_, ?_, ?_⟩
  · split_ifs <;> rfl
  · have hc : ¬ bytes "Host" = bytes "Connection" := by decide
    by_cases hn : headerName h = bytes "Host"
    · simp [hn, hc]
    · by_cases hc2 : headerName h = bytes "Connection"
      · rw [if_neg hn, if_pos hc2, if_pos hc2]
      · rw [if_neg hn, if_neg hc2, if_neg hc2]
  · split_ifs <;> rfl
  · split_ifs <;> rfl
  · split_ifs <;> rfl

/-- The fields of the request after a block of header lines with one colon each. -/
theorem foldHeaders_spec (hs : List Str) (req : Request) (h1 : ∀ h ∈ hs, h.count 58 = 1) :
    ∃ r, foldHeaders req hs = some r ∧
      r.Host = (lastHeader (bytes "Host") hs).getD req.Host ∧
      r.Close = (match lastHeader (bytes "Connection") hs with
        | some v => decide (v = bytes "close")
        | none => req.Close) ∧
      r.Method = req.Method ∧ r.URL = req.URL ∧ r.Proto = req.Proto := by
  induction hs generalizing req with
  | nil => exact ⟨req, rfl, by simp [lastHeader], by simp [lastHeader], rfl, rfl, rfl⟩
  | cons h hs ih =>
    have hh : h.count 58 = 1 := h1 h (by simp)
    have hrest : ∀ x ∈ hs, x.count 58 = 1 := fun x hx => h1 x (by simp [hx])
    obtain ⟨req1, hst, hH, hC, hM, hU, hP⟩ := headerStep_one_colon_fields req h hh
    simp only [foldHeaders, hst]
    obtain ⟨r, hr, hhost, hclose, hm, hu, hp⟩ := ih req1 hrest
    refine ⟨r, hr, ?_, ?_, by rw [hm, hM], by rw [hu, hU], by rw [hp, hP]⟩
    · rw [hhost, lastHeader_cons, hH]
      cases lastHeader (bytes "Host") hs with
      | some v => simp
      | none => split_ifs <;> simp
    · rw [hclose, lastHeader_cons, hC]
      cases lastHeader (bytes "Connection") hs with
      | some v => simp
      | none => split_ifs <;> simp

theorem foldHeaders_none (hs : List Str) (req : Request) (h1 : ∃ h ∈ hs, h.count 58 ≠ 1) :
    foldHeaders req hs = none := by
  induction hs generalizing req with
  | nil => simp at h1
  | cons h hs ih =>
    by_cases hh : h.count 58 = 1
    · have hrest : ∃ x ∈ hs, x.count 58 ≠ 1 := by
        obtain ⟨x, hx, hx1⟩ := h1
        rcases List.mem_cons.mp hx with rfl | hx2
        · exact absurd hh hx1
        · exact ⟨x, hx2, hx1⟩
      simp only [foldHeaders, headerStep_one_colon req h hh]
      exact ih _ hrest
    · simp only [foldHeaders, headerStep_eq_none req h hh]

theorem foldHeaders_some_count (hs : List Str) (req r : Request)
    (h : foldHeaders req hs = some r) : ∀ x ∈ hs, x.count 58 = 1 := by
  intro x hx
  by_contra hne
  rw [foldHeaders_none hs req ⟨x, hx, hne⟩] at h
  simp at h

theorem encodeLines_cons (h : Str) (hs : List Str) :
    encodeLines (h :: hs) = h ++ 13 :: 10 :: encodeLines hs := by
  simp [encodeLines]

theorem encodeLines_length (hs : List Str) : hs.length ≤ (encodeLines hs).length := by
  induction hs with
  | nil => simp
  | cons h hs ih =>
    rw [encodeLines_cons]
    simp
    omega

/-- The header loop on a block of non-empty lines followed by the empty line. -/
theorem headerLoop_lines (hs : List Str) (rest : Str) (e : Err) (req : Request) (fuel : Nat)
    (hl : ∀ h ∈ hs, h ≠ [] ∧ splitCRLF h = none) (hf : hs.length < fuel) :
    (∀ r, foldHeaders req hs = some r →
      headerLoop fuel ⟨encodeLines hs ++ 13 :: 10 :: rest, e⟩ req =
        some (if r.Host.length = 0 then
            ⟨none, true, some (Err.new "there is no host"), ⟨rest, e⟩⟩
          else ⟨some r, true, none, ⟨rest, e⟩⟩)) ∧
    (foldHeaders req hs = none →
      ∃ br1, headerLoop fuel ⟨encodeLines hs ++ 13 :: 10 :: rest, e⟩ req =
        some ⟨none, true, some (Err.new "malformed header"), br1⟩) := by
  induction hs generalizing req fuel with
  | nil =>
    cases fuel with
    | zero => simp at hf
    | succ fuel =>
      have hrl : ReadLine ⟨encodeLines [] ++ 13 :: 10 :: rest, e⟩ = ([], none, ⟨rest, e⟩) := by
        simp [encodeLines, ReadLine, splitCRLF]
      constructor
      · intro r hr
        simp only [foldHeaders, Option.some.injEq] at hr
        subst hr
        unfold headerLoop
        rw [hrl]
        simp only [if_true]
        split_ifs <;> rfl
      · intro hr
        simp [foldHeaders] at hr
  | cons h hs ih =>
    cases fuel with
    | zero => simp at hf
    | succ fuel =>
      obtain ⟨hne, hcr⟩ := hl h (by simp)
      have hrest : ∀ x ∈ hs, x ≠ [] ∧ splitCRLF x = none := fun x hx => hl x (by simp [hx])
      have hf2 : hs.length < fuel := by simp at hf; omega
      have hrl : ReadLine ⟨encodeLines (h :: hs) ++ 13 :: 10 :: rest, e⟩
          = (h, none, ⟨encodeLines hs ++ 13 :: 10 :: rest, e⟩) := by
        rw [ReadLine_line ⟨encodeLines (h :: hs) ++ 13 :: 10 :: rest, e⟩ h
          (encodeLines hs ++ 13 :: 10 :: rest) hcr (by simp [encodeLines_cons])]
      cases hst : headerStep req h with
      | none =>
        constructor
        · intro r hr
          simp [foldHeaders, hst] at hr
        · intro _
          unfold headerLoop
          rw [hrl]
          simp only [hne, if_false, hst]
          exact ⟨_, rfl⟩
      | some req1 =>
        obtain ⟨ih1, ih2⟩ := ih req1 fuel hrest hf2
        constructor
        · intro r hr
          simp only [foldHeaders, hst] at hr
          unfold headerLoop
          rw [hrl]
          simp only [hne, if_false, hst]
          exact ih1 r hr
        · intro hr
          simp only [foldHeaders, hst] at hr
          unfold headerLoop
          rw [hrl]
          simp only [hne, if_false, hst]
          exact ih2 hr

/-- `ReadRequest` on a valid request line followed by CRLF starts the header loop on the
rest of the bytes. -/
theorem ReadRequest_requestLine (target tail : Str) (e : Err) (hp : target.head? = some 47)
    (hsp : 32 ∉ target) (hcr : splitCRLF target = none) :
    ReadRequest ⟨requestLine target ++ 13 :: 10 :: tail, e⟩ =
      headerLoop ((requestLine target ++ 13 :: 10 :: tail).length + 1) ⟨tail, e⟩
        { Method := bytes "GET", URL := target, Proto := bytes "HTTP/1.1" } := by
  unfold ReadRequest ReadRequestFuel
  rw [ReadLine_line ⟨requestLine target ++ 13 :: 10 :: tail, e⟩ (requestLine target) tail
    (splitCRLF_requestLine target hcr) rfl]
  have hlen : ¬ (requestLine target).length = 0 := by simp [requestLine, bytes]
  have hpre : HasPrefix target (bytes "/") = true := by
    cases target with
    | nil => simp at hp
    | cons c cs =>
      simp at hp
      subst hp
      simp [HasPrefix, bytes]
  simp only [hlen, if_false, ne_eq, not_true_eq_false, Split_requestLine target hsp, hpre,
    Bool.not_true, Bool.false_eq_true]

theorem requestBytes_append (target : Str) (hs : List Str) (rest : Str) :
    requestBytes target hs ++ rest
      = requestLine target ++ 13 :: 10 :: (encodeLines hs ++ 13 :: 10 :: rest) := by
  simp [requestBytes]

/-- `ReadRequest` on the bytes of a request with a valid request line and non-empty
header lines: the result is decided by `foldHeaders`. -/
theorem ReadRequest_request (target : Str) (hs : List Str) (rest : Str) (e : Err)
    (hp : target.head? = some 47) (hsp : 32 ∉ target) (hcr : splitCRLF target = none)
    (hl : ∀ h ∈ hs, h ≠ [] ∧ splitCRLF h = none) :
    (∀ r, foldHeaders { Method := bytes "GET", URL := target, Proto := bytes "HTTP/1.1" } hs
        = some r →
      ReadRequest ⟨requestBytes target hs ++ rest, e⟩ =
        some (if r.Host.length = 0 then
            ⟨none, true, some (Err.new "there is no host"), ⟨rest, e⟩⟩
          else ⟨some r, true, none, ⟨rest, e⟩⟩)) ∧
    (foldHeaders { Method := bytes "GET", URL := target, Proto := bytes "HTTP/1.1" } hs = none →
      ∃ br1, ReadRequest ⟨requestBytes target hs ++ rest, e⟩ =
        some ⟨none, true, some (Err.new "malformed header"), br1⟩) := by
  rw [requestBytes_append, ReadRequest_requestLine target _ e hp hsp hcr]
  apply headerLoop_lines hs rest e _ _ hl
  have := encodeLines_length hs
  simp
  omega

/-! ## Writing a response to a connection that accepts every write -/

theorem connWrite_accept (accept : Nat → Bool) (n : Nat) (b : Str) (h : ∀ n, accept n = true) :
    connWrite accept n b = ⟨[b], n + 1, none⟩ := by
  simp [connWrite, h]

theorem writeHeaderLines_accept (hd : HeaderMap) (accept : Nat → Bool) (ks : List Str)
    (n : Nat) (h : ∀ n, accept n = true) :
    writeHeaderLines hd accept ks n =
      ⟨ks.map (fun k => k ++ bytes ": " ++ (mapGet hd k).getD [] ++ bytes "\r\n"),
        n + ks.length, none⟩ := by
  induction ks generalizing n with
  | nil => rfl
  | cons k ks ih =>
    simp only [writeHeaderLines, connWrite_accept accept n _ h, ih]
    simp
    omega

theorem WriteSortedHeaders_accept (res : Response) (accept : Nat → Bool) (n : Nat)
    (h : ∀ n, accept n = true) :
    res.WriteSortedHeaders accept n =
      ⟨(sortStrings (res.Header.map Prod.fst)).map
          (fun k => k ++ bytes ": " ++ (mapGet res.Header k).getD [] ++ bytes "\r\n")
          ++ [bytes "\r\n"],
        n + (sortStrings (res.Header.map Prod.fst)).length + 1, none⟩ := by
  simp [Response.WriteSortedHeaders, writeHeaderLines_accept _ accept _ _ h,
    connWrite_accept accept _ _ h, WriteResult.orErr]

theorem Itoa_codes : Itoa 200 = bytes "200" ∧ Itoa 400 = bytes "400" ∧ Itoa 404 = bytes "404" := by
  decide

theorem respondBadRequest_accept (w : World) (c : Conn) (h : ∀ n, w.Write n = true) :
    respondBadRequest w c = (badRequestChunks (w.Now c.ticks)).map Event.write ++ [Event.close] := by
  have hs : sortStrings [bytes "Date", bytes "Connection"] = [bytes "Connection", bytes "Date"] := by
    decide
  have hm : mapSet (mapSet [] (bytes "Date") (FormatTime (w.Now c.ticks))) (bytes "Connection")
      (bytes "close") = [(bytes "Date", FormatTime (w.Now c.ticks)),
        (bytes "Connection", bytes "close")] := by
    have hne : ¬ bytes "Date" = bytes "Connection" := by decide
    simp [mapSet, hne]
  have hg1 : mapGet [(bytes "Date", FormatTime (w.Now c.ticks)),
      (bytes "Connection", bytes "close")] (bytes "Connection") = some (bytes "close") := by
    have hne : ¬ bytes "Date" = bytes "Connection" := by decide
    simp [mapGet, hne]
  have hg2 : mapGet [(bytes "Date", FormatTime (w.Now c.ticks)),
      (bytes "Connection", bytes "close")] (bytes "Date") = some (FormatTime (w.Now c.ticks)) := by
    simp [mapGet]
  simp only [respondBadRequest, Response.Write, Response.HandleBadRequest, hm,
    WriteSortedHeaders_accept _ _ _ h, Response.WriteStatusLine, Response.WriteBody,
    connWrite_accept _ _ _ h, WriteResult.orErr, List.map, hs, hg1, hg2, badRequestChunks]
  simp [Itoa_codes.2.1, bytes]

/-! ## One round of the handler's loop -/

theorem handleLoop_parse_error (s : Server) (w : World) (fuel : Nat) (c : Conn)
    (r : ReadResult) (msg : String) (hd : w.SetReadDeadline c.ticks = true)
    (hr : ReadRequest c.br = some r) (he : r.err = some (Err.new msg)) :
    handleLoop s w (fuel + 1) c =
      some (Event.read :: respondBadRequest w { c with ticks := c.ticks + 1 }) := by
  unfold handleLoop
  simp [hd, hr, he]

theorem foldHeaders_no_host (hs : List Str) (req r : Request)
    (hn : ∀ h ∈ hs, headerName h ≠ bytes "Host") (h : foldHeaders req hs = some r) :
    r.Host = req.Host := by
  obtain ⟨r1, hr1, hhost, _⟩ := foldHeaders_spec hs req (foldHeaders_some_count hs req r h)
  rw [h] at hr1
  simp only [Option.some.injEq] at hr1
  subst hr1
  have hf : hs.filter (fun h => decide (headerName h = bytes "Host")) = [] := by
    rw [List.filter_eq_nil_iff]
    intro a ha
    simpa using hn a ha
  rw [hhost]
  simp [lastHeader, hf]

theorem Conn_br_eta (c : Conn) (d : Str) (h : c.br.data = d) : c.br = ⟨d, c.br.ending⟩ := by
  cases c with
  | mk br ticks writes =>
    cases br with
    | mk data ending =>
      simp at h
      simp [h]

/-! ## The responses to a parsed request -/

theorem okHeader_map (d m t l : Str) :
    mapSet (mapSet (mapSet (mapSet [] (bytes "Date") d) (bytes "Last-Modified") m)
      (bytes "Content-Type") t) (bytes "Content-Length") l
      = [(bytes "Date", d), (bytes "Last-Modified", m), (bytes "Content-Type", t),
          (bytes "Content-Length", l)] := by
  rfl

theorem okHeader_map_close (d m t l : Str) :
    mapSet [(bytes "Date", d), (bytes "Last-Modified", m), (bytes "Content-Type", t),
        (bytes "Content-Length", l)] (bytes "Connection") (bytes "close")
      = [(bytes "Date", d), (bytes "Last-Modified", m), (bytes "Content-Type", t),
          (bytes "Content-Length", l), (bytes "Connection", bytes "close")] := by
  rfl

theorem notFoundHeader_map_close (d : Str) :
    mapSet (mapSet [] (bytes "Date") d) (bytes "Connection") (bytes "close")
      = [(bytes "Date", d), (bytes "Connection", bytes "close")] := by
  rfl

theorem Itoa_ofNat (n : Nat) : Itoa (Int.ofNat n) = natDigits n := by
  simp [Itoa]

theorem Clean_ne_nil (p : Str) : Clean p ≠ [] := by
  unfold Clean
  split_ifs with h
  · decide
  · exact h

theorem resolvedPath_ne_nil (s : Server) (target : Str) (h : target ≠ []) :
    resolvedPath s target ≠ [] := by
  unfold resolvedPath Join
  have hne : (if target.getLast? = some 47 then target ++ bytes "index.html" else target) ≠ [] := by
    split_ifs <;> simp [h]
  generalize (if target.getLast? = some 47 then target ++ bytes "index.html" else target) = u at hne
  by_cases hd : s.DocRoot = []
  · simp only [hd, List.dropWhile_cons, decide_True, if_true]
    simp only [List.dropWhile_cons, hne, decide_False]
    exact Clean_ne_nil _
  · simp only [List.dropWhile_cons, hd, decide_False]
    exact Clean_ne_nil _

theorem HandleGoodRequest_path (s : Server) (w : World) (now : Time) (req : Request)
    (hurl : req.URL ≠ []) :
    s.HandleGoodRequest w now req =
      (match w.Stat (resolvedPath s req.URL) with
        | StatResult.notExist => Except.ok (({} : Response).HandleNotFound now req)
        | StatResult.otherErr => Except.error Crash.fatal
        | StatResult.info isDir _ _ =>
          if isDir then Except.ok (({} : Response).HandleNotFound now req)
          else ({} : Response).HandleOK w now req (resolvedPath s req.URL)).map
        (fun res : Response => { res with Proto := req.Proto }) := by
  unfold Server.HandleGoodRequest resolvedPath
  cases hl : req.URL.getLast? with
  | none => simp at hl; exact absurd hl hurl
  | some last =>
    by_cases h47 : last = 47
    · subst h47
      simp only [if_true]
      rfl
    · have h2 : ¬ (some last = some 47) := by simpa using h47
      simp only [h47, h2, if_false]

theorem Write_accept_404 (res : Response) (readFile : Str → Option Str) (accept : Nat → Bool)
    (n : Nat) (h : ∀ n, accept n = true) (hcode : res.StatusCode = 404)
    (hfp : res.FilePath = []) :
    res.Write readFile accept n =
      ⟨(res.Proto ++ bytes " 404 Not Found\r\n") ::
          ((sortStrings (res.Header.map Prod.fst)).map
            (fun k => k ++ bytes ": " ++ (mapGet res.Header k).getD [] ++ bytes "\r\n")
            ++ [bytes "\r\n"]),
        n + 1 + (sortStrings (res.Header.map Prod.fst)).length + 1, none⟩ := by
  simp only [Response.Write, Response.WriteStatusLine, hcode, Response.WriteBody, hfp,
    WriteSortedHeaders_accept _ _ _ h, connWrite_accept _ _ _ h, WriteResult.orErr,
    Itoa_codes.2.2]
  simp [bytes]

theorem Write_accept_200 (res : Response) (readFile : Str → Option Str) (accept : Nat → Bool)
    (n : Nat) (content : Str) (h : ∀ n, accept n = true) (hcode : res.StatusCode = 200)
    (hfp : res.FilePath ≠ []) (hread : readFile res.FilePath = some content) :
    res.Write readFile accept n =
      ⟨(res.Proto ++ bytes " 200 OK\r\n") ::
          ((sortStrings (res.Header.map Prod.fst)).map
            (fun k => k ++ bytes ": " ++ (mapGet res.Header k).getD [] ++ bytes "\r\n")
            ++ [bytes "\r\n", content]),
        n + 1 + (sortStrings (res.Header.map Prod.fst)).length + 1 + 1, none⟩ := by
  simp only [Response.Write, Response.WriteStatusLine, hcode, Response.WriteBody, hfp, hread,
    WriteSortedHeaders_accept _ _ _ h, connWrite_accept _ _ _ h, WriteResult.orErr,
    Itoa_codes.1]
  simp [bytes]

theorem notFound_lines (close : Bool) (now : Time) :
    (sortStrings ((if close = true then
          mapSet (mapSet [] (bytes "Date") (FormatTime now)) (bytes "Connection") (bytes "close")
        else mapSet [] (bytes "Date") (FormatTime now)).map Prod.fst)).map
      (fun k => k ++ bytes ": " ++ (mapGet (if close = true then
          mapSet (mapSet [] (bytes "Date") (FormatTime now)) (bytes "Connection") (bytes "close")
        else mapSet [] (bytes "Date") (FormatTime now)) k).getD [] ++ bytes "\r\n")
      = notFoundHeaderLines close now := by
  have hs : sortStrings [bytes "Date", bytes "Connection"] = [bytes "Connection", bytes "Date"] := by
    decide
  have hs1 : sortStrings [bytes "Date"] = [bytes "Date"] := by decide
  have hg1 : ∀ d : Str, mapGet [(bytes "Date", d), (bytes "Connection", bytes "close")]
      (bytes "Connection") = some (bytes "close") := fun d => rfl
  have hg2 : ∀ d : Str, mapGet [(bytes "Date", d), (bytes "Connection", bytes "close")]
      (bytes "Date") = some d := fun d => rfl
  have hg3 : ∀ d : Str, mapGet [(bytes "Date", d)] (bytes "Date") = some d := fun d => rfl
  have hm1 : ∀ d : Str, mapSet [] (bytes "Date") d = [(bytes "Date", d)] := fun d => rfl
  cases close
  · simp only [Bool.false_eq_true, if_false, hm1, List.map, hs1, hg3, notFoundHeaderLines]
    simp [bytes]
  · simp only [if_true, notFoundHeader_map_close, List.map, hs, hg1, hg2, notFoundHeaderLines]
    simp [bytes]

theorem ReadRequest_parsed (br : Reader) (r : ReadResult) (req : Request)
    (hr : ReadRequest br = some r) (he : r.err = none) (hreq : r.req = some req) :
    req.URL ≠ [] ∧ req.URL.take 1 = bytes "/" ∧ req.Proto = bytes "HTTP/1.1" ∧
      r.br.data.length < br.data.length := by
  obtain ⟨r1, hr1, h⟩ := ReadRequest_spec br
  rw [hr] at hr1
  simp only [Option.some.injEq] at hr1
  subst hr1
  obtain ⟨_, hlt, rq, hrq, _, hu, hp, _⟩ := h he
  rw [hreq] at hrq
  simp only [Option.some.injEq] at hrq
  subst hrq
  refine ⟨?_, ?_, hp, hlt⟩
  · intro h0
    rw [h0] at hu
    simp [HasPrefix, bytes] at hu
  · cases hurl : req.URL with
    | nil => rw [hurl] at hu; simp [HasPrefix, bytes] at hu
    | cons c cs =>
      rw [hurl] at hu
      simp [HasPrefix, bytes] at hu
      simp [bytes, hu]


theorem handleLoop_good (s : Server) (w : World) (fuel : Nat) (c : Conn) (r : ReadResult)
    (req : Request) (res : Response) (hd : w.SetReadDeadline c.ticks = true)
    (hr : ReadRequest c.br = some r) (he : r.err = none) (hreq : r.req = some req)
    (hres : s.HandleGoodRequest w (w.Now (c.ticks + 1)) req = Except.ok res) :
    handleLoop s w (fuel + 1) c =
      (handleLoop s w fuel
          ⟨r.br, c.ticks + 1 + 1, (res.Write w.ReadFile w.Write c.writes).calls⟩).map
        (fun rest => Event.read ::
          ((res.Write w.ReadFile w.Write c.writes).out.map Event.write ++ rest)) := by
  obtain ⟨hurl, htake, _, _⟩ := ReadRequest_parsed c.br r req hr he hreq
  conv_lhs => unfold handleLoop
  simp [hd, hr, he, hreq, hurl, htake, hres]

theorem ok_lines (close : Bool) (d m t l : Str) :
    (sortStrings ((if close = true then
          mapSet (mapSet (mapSet (mapSet (mapSet [] (bytes "Date") d) (bytes "Last-Modified") m)
            (bytes "Content-Type") t) (bytes "Content-Length") l) (bytes "Connection")
            (bytes "close")
        else mapSet (mapSet (mapSet (mapSet [] (bytes "Date") d) (bytes "Last-Modified") m)
            (bytes "Content-Type") t) (bytes "Content-Length") l).map Prod.fst)).map
      (fun k => k ++ bytes ": " ++ (mapGet (if close = true then
          mapSet (mapSet (mapSet (mapSet (mapSet [] (bytes "Date") d) (bytes "Last-Modified") m)
            (bytes "Content-Type") t) (bytes "Content-Length") l) (bytes "Connection")
            (bytes "close")
        else mapSet (mapSet (mapSet (mapSet [] (bytes "Date") d) (bytes "Last-Modified") m)
            (bytes "Content-Type") t) (bytes "Content-Length") l) k).getD [] ++ bytes "\r\n")
      = (if close = true then [bytes "Connection: close\r\n"] else []) ++
        [bytes "Content-Length: " ++ l ++ bytes "\r\n", bytes "Content-Type: " ++ t ++ bytes "\r\n",
          bytes "Date: " ++ d ++ bytes "\r\n", bytes "Last-Modified: " ++ m ++ bytes "\r\n"] := by
  have hs : sortStrings [bytes "Date", bytes "Last-Modified", bytes "Content-Type",
      bytes "Content-Length"] = [bytes "Content-Length", bytes "Content-Type", bytes "Date",
      bytes "Last-Modified"] := by decide
  have hsc : sortStrings [bytes "Date", bytes "Last-Modified", bytes "Content-Type",
      bytes "Content-Length", bytes "Connection"] = [bytes "Connection", bytes "Content-Length",
      bytes "Content-Type", bytes "Date", bytes "Last-Modified"] := by decide
  cases close
  · simp only [Bool.false_eq_true, if_false, okHeader_map, List.map, hs]
    have g1 : mapGet [(bytes "Date", d), (bytes "Last-Modified", m), (bytes "Content-Type", t),
        (bytes "Content-Length", l)] (bytes "Content-Length") = some l := rfl
    have g2 : mapGet [(bytes "Date", d), (bytes "Last-Modified", m), (bytes "Content-Type", t),
        (bytes "Content-Length", l)] (bytes "Content-Type") = some t := rfl
    have g3 : mapGet [(bytes "Date", d), (bytes "Last-Modified", m), (bytes "Content-Type", t),
        (bytes "Content-Length", l)] (bytes "Date") = some d := rfl
    have g4 : mapGet [(bytes "Date", d), (bytes "Last-Modified", m), (bytes "Content-Type", t),
        (bytes "Content-Length", l)] (bytes "Last-Modified") = some m := rfl
    rw [g1, g2, g3, g4]
    simp [bytes]
  · simp only [if_true, okHeader_map, okHeader_map_close, List.map, hsc]
    have g0 : mapGet [(bytes "Date", d), (bytes "Last-Modified", m), (bytes "Content-Type", t),
        (bytes "Content-Length", l), (bytes "Connection", bytes "close")] (bytes "Connection")
        = some (bytes "close") := rfl
    have g1 : mapGet [(bytes "Date", d), (bytes "Last-Modified", m), (bytes "Content-Type", t),
        (bytes "Content-Length", l), (bytes "Connection", bytes "close")]
        (bytes "Content-Length") = some l := rfl
    have g2 : mapGet [(bytes "Date", d), (bytes "Last-Modified", m), (bytes "Content-Type", t),
        (bytes "Content-Length", l), (bytes "Connection", bytes "close")]
        (bytes "Content-Type") = some t := rfl
    have g3 : mapGet [(bytes "Date", d), (bytes "Last-Modified", m), (bytes "Content-Type", t),
        (bytes "Content-Length", l), (bytes "Connection", bytes "close")] (bytes "Date")
        = some d := rfl
    have g4 : mapGet [(bytes "Date", d), (bytes "Last-Modified", m), (bytes "Content-Type", t),
        (bytes "Content-Length", l), (bytes "Connection", bytes "close")]
        (bytes "Last-Modified") = some m := rfl
    rw [g0, g1, g2, g3, g4]
    simp [bytes]

/-- The response of `HandleGoodRequest` to a request for an existing regular file, and
its bytes on a connection that accepts the writes. -/
theorem HandleGoodRequest_file (s : Server) (w : World) (now : Time) (req : Request)
    (content : Str) (modTime : Time) (n : Nat) (hurl : req.URL ≠ [])
    (hproto : req.Proto = bytes "HTTP/1.1")
    (hstat : w.Stat (resolvedPath s req.URL) = StatResult.info false content.length modTime)
    (hread : w.ReadFile (resolvedPath s req.URL) = some content)
    (hw : ∀ n, w.Write n = true) :
    ∃ res, s.HandleGoodRequest w now req = Except.ok res ∧
      (res.Write w.ReadFile w.Write n).out =
        bytes "HTTP/1.1 200 OK\r\n" ::
          (okHeaderLines req.Close content.length
              (w.MIMETypeByExtension
                (bytes "." ++ (Split (resolvedPath s req.URL) 46).getLastD [])) now modTime
            ++ [bytes "\r\n", content]) := by
  have hres : s.HandleGoodRequest w now req = Except.ok
      ⟨200, req.Proto, (if req.Close = true then
          mapSet (mapSet (mapSet (mapSet (mapSet [] (bytes "Date") (FormatTime now))
            (bytes "Last-Modified") (FormatTime modTime)) (bytes "Content-Type")
            (w.MIMETypeByExtension (bytes "." ++ (Split (resolvedPath s req.URL) 46).getLastD [])))
            (bytes "Content-Length") (Itoa (Int.ofNat content.length))) (bytes "Connection")
            (bytes "close")
          else mapSet (mapSet (mapSet (mapSet [] (bytes "Date") (FormatTime now))
            (bytes "Last-Modified") (FormatTime modTime)) (bytes "Content-Type")
            (w.MIMETypeByExtension (bytes "." ++ (Split (resolvedPath s req.URL) 46).getLastD [])))
            (bytes "Content-Length") (Itoa (Int.ofNat content.length))), none,
        resolvedPath s req.URL⟩ := by
    rw [HandleGoodRequest_path s w now req hurl, hstat]
    simp only [Bool.false_eq_true, if_false, Response.HandleOK, hstat]
    rfl
  refine ⟨_, hres, ?_⟩
  rw [Write_accept_200 _ w.ReadFile w.Write n content hw rfl
    (resolvedPath_ne_nil s req.URL hurl) hread]
  simp only [ok_lines, hproto, okHeaderLines, Itoa_ofNat]
  simp [bytes]


/-- Every round that sets its deadline starts by reading a request. -/
theorem handleLoop_starts_with_read (s : Server) (w : World) (fuel : Nat) (c : Conn)
    (hd : w.SetReadDeadline c.ticks = true) (hf : c.br.data.length < fuel + 1) :
    ∃ rest, handleLoop s w (fuel + 1) c = some (Event.read :: rest) := by
  obtain ⟨r, hr, hspec⟩ := ReadRequest_spec c.br
  unfold handleLoop
  simp only [hd, Bool.not_true, Bool.false_eq_true, if_false, hr]
  split_ifs with h1 h2 h3 h4 h5
  all_goals try exact ⟨_, rfl⟩
  have hnone : r.err = none := by simpa using h5
  obtain ⟨_, hlt, _⟩ := hspec hnone
  split
  · exact ⟨_, rfl⟩
  · split_ifs
    · exact ⟨_, rfl⟩
    · exact ⟨_, rfl⟩
    · split
      · exact ⟨_, rfl⟩
      · exact ⟨_, rfl⟩
      · rename_i res _
        have hsome := handleLoop_isSome s w fuel
          ⟨r.br, c.ticks + 1 + 1, (res.Write w.ReadFile w.Write c.writes).calls⟩
          (by show r.br.data.length < fuel; omega)
        obtain ⟨later, hlater⟩ := Option.isSome_iff_exists.mp hsome
        simp only [hlater, Option.map_some']
        exact ⟨_, rfl⟩

/-- After the response to a parsed request the handler reads again, whatever the
request's `Close` is: the events of the round are the read, the bytes of the response,
and then a further read. -/
theorem handleLoop_reads_again (s : Server) (w : World) (fuel : Nat) (c : Conn)
    (r : ReadResult) (req : Request) (res : Response)
    (hd : w.SetReadDeadline c.ticks = true) (hd2 : w.SetReadDeadline (c.ticks + 1 + 1) = true)
    (hr : ReadRequest c.br = some r) (he : r.err = none) (hreq : r.req = some req)
    (hres : s.HandleGoodRequest w (w.Now (c.ticks + 1)) req = Except.ok res)
    (hf : c.br.data.length < fuel + 1 + 1) :
    ∃ rest, handleLoop s w (fuel + 1 + 1) c =
      some (Event.read ::
        ((res.Write w.ReadFile w.Write c.writes).out.map Event.write ++ Event.read :: rest)) := by
  obtain ⟨_, _, _, hlt⟩ := ReadRequest_parsed c.br r req hr he hreq
  obtain ⟨rest, hrest⟩ := handleLoop_starts_with_read s w fuel
    ⟨r.br, c.ticks + 1 + 1, (res.Write w.ReadFile w.Write c.writes).calls⟩ hd2
    (by show r.br.data.length < fuel + 1; omega)
  refine ⟨rest, ?_⟩
  rw [handleLoop_good s w (fuel + 1) c r req res hd hr he hreq hres, hrest]
  rfl

/-! ## Rounds that end in a bad request or in silence -/

/-- A round whose `ReadRequest` fails after bytes were received answers 400 and closes. -/
theorem handleLoop_error_received (s : Server) (w : World) (fuel : Nat) (c : Conn)
    (r : ReadResult) (hd : w.SetReadDeadline c.ticks = true) (hr : ReadRequest c.br = some r)
    (he : r.err ≠ none) (hb : r.bytesReceived = true) :
    handleLoop s w (fuel + 1) c =
      some (Event.read :: respondBadRequest w { c with ticks := c.ticks + 1 }) := by
  unfold handleLoop
  simp only [hd, Bool.not_true, Bool.false_eq_true, if_false, hr, hb, if_true, he]
  split_ifs <;> rfl

/-- A round that finds the stream at its end with no byte closes without writing. -/
theorem handleLoop_no_bytes (s : Server) (w : World) (fuel : Nat) (c : Conn)
    (hc : c.br.data = []) (hd : w.SetReadDeadline c.ticks = true) :
    handleLoop s w (fuel + 1) c = some [Event.read, Event.close] := by
  have hr : ReadRequest c.br = some ⟨some {}, false, some Err.EOF, ⟨[], c.br.ending⟩⟩ := by
    simp [ReadRequest, ReadRequestFuel, ReadLine, hc, splitCRLF]
  unfold handleLoop
  simp [hd, hr]

/-- A round that finds a partial first line (some bytes, no CRLF) before the stream ends
answers exactly 400 and closes. -/
theorem handleLoop_partial_line (s : Server) (w : World) (fuel : Nat) (c : Conn)
    (hne : c.br.data ≠ []) (hcr : splitCRLF c.br.data = none)
    (hd : w.SetReadDeadline c.ticks = true) (hw : ∀ n, w.Write n = true) :
    handleLoop s w (fuel + 1) c =
      some (Event.read ::
        ((badRequestChunks (w.Now (c.ticks + 1))).map Event.write ++ [Event.close])) := by
  have hlen : ¬ c.br.data.length = 0 := by
    intro h0
    exact hne (List.length_eq_zero.mp h0)
  have hr : ReadRequest c.br = some ⟨none, true, some c.br.ending, ⟨[], c.br.ending⟩⟩ := by
    simp [ReadRequest, ReadRequestFuel, ReadLine, hcr, hlen]
  rw [handleLoop_error_received s w fuel c _ hd hr (by simp) rfl,
    respondBadRequest_accept w _ hw]

/-- A round that reads a non-empty malformed request line (not three tokens, or a wrong
method, target or version) answers exactly 400 and closes. -/
theorem handleLoop_malformed_line (s : Server) (w : World) (fuel : Nat) (c : Conn)
    (line rest : Str) (hc : c.br.data = line ++ 13 :: 10 :: rest) (hne : line ≠ [])
    (hcr : splitCRLF line = none)
    (hbad : ∀ target, ¬ (Split line 32 = [bytes "GET", target, bytes "HTTP/1.1"] ∧
      HasPrefix target (bytes "/") = true))
    (hd : w.SetReadDeadline c.ticks = true) (hw : ∀ n, w.Write n = true) :
    handleLoop s w (fuel + 1) c =
      some (Event.read ::
        ((badRequestChunks (w.Now (c.ticks + 1))).map Event.write ++ [Event.close])) := by
  have hlen : ¬ line.length = 0 := by
    intro h0
    exact hne (List.length_eq_zero.mp h0)
  have hr : ∃ msg br1, ReadRequest c.br = some ⟨none, true, some (Err.new msg), br1⟩ := by
    unfold ReadRequest ReadRequestFuel
    rw [ReadLine_line c.br line rest hcr hc]
    simp only [hlen, if_false, ne_eq, not_true_eq_false]
    split
    · rename_i method url proto hsplit
      by_cases hm : method = bytes "GET"
      · by_cases hu : HasPrefix url (bytes "/") = true
        · by_cases hpr : proto = bytes "HTTP/1.1"
          · exfalso
            apply hbad url
            rw [hsplit, hm, hpr]
            exact ⟨rfl, hu⟩
          · simp only [hm, not_true_eq_false, if_false, hu, Bool.not_true, Bool.false_eq_true,
              hpr, not_false_eq_true, if_true]
            exact ⟨_, _, rfl⟩
        · simp only [hm, not_true_eq_false, if_false]
          have hu2 : (!HasPrefix url (bytes "/")) = true := by simpa using hu
          rw [if_pos hu2]
          exact ⟨_, _, rfl⟩
      · rw [if_pos hm]
        exact ⟨_, _, rfl⟩
    · exact ⟨_, _, rfl⟩
  obtain ⟨msg, br1, hr⟩ := hr
  rw [handleLoop_parse_error s w fuel c _ msg hd hr rfl, respondBadRequest_accept w _ hw]

theorem headerLoop_unterminated (hs : List Str) (tail : Str) (e : Err) (req : Request)
    (fuel : Nat) (r : ReadResult) (hl : ∀ h ∈ hs, h ≠ [] ∧ splitCRLF h = none)
    (ht : splitCRLF tail = none)
    (hr : headerLoop fuel ⟨encodeLines hs ++ tail, e⟩ req = some r) : r.err ≠ none := by
  induction hs generalizing req fuel with
  | nil =>
    cases fuel with
    | zero => simp [headerLoop] at hr
    | succ fuel =>
      unfold headerLoop at hr
      have hrl : ReadLine ⟨encodeLines [] ++ tail, e⟩ = (tail, some e, ⟨[], e⟩) := by
        simp [encodeLines, ReadLine, ht]
      rw [hrl] at hr
      simp only [Option.some.injEq] at hr
      subst hr
      simp
  | cons h hs ih =>
    cases fuel with
    | zero => simp [headerLoop] at hr
    | succ fuel =>
      obtain ⟨hne, hcr⟩ := hl h (by simp)
      have hrest : ∀ x ∈ hs, x ≠ [] ∧ splitCRLF x = none := fun x hx => hl x (by simp [hx])
      have hrl : ReadLine ⟨encodeLines (h :: hs) ++ tail, e⟩
          = (h, none, ⟨encodeLines hs ++ tail, e⟩) := by
        rw [ReadLine_line ⟨encodeLines (h :: hs) ++ tail, e⟩ h (encodeLines hs ++ tail) hcr
          (by simp [encodeLines_cons])]
      unfold headerLoop at hr
      rw [hrl] at hr
      simp only [hne, if_false] at hr
      cases hst : headerStep req h with
      | none =>
        rw [hst] at hr
        simp only [Option.some.injEq] at hr
        subst hr
        simp
      | some req1 =>
        rw [hst] at hr
        exact ih req1 fuel hrest hr

/-- A round that reads a valid request line and header lines, and finds the end of the
stream before the empty line, answers exactly 400 and closes. -/
theorem handleLoop_unterminated_headers (s : Server) (w : World) (fuel : Nat) (c : Conn)
    (target : Str) (hs : List Str) (tail : Str)
    (hc : c.br.data = requestLine target ++ 13 :: 10 :: (encodeLines hs ++ tail))
    (hp : target.head? = some 47) (hsp : 32 ∉ target) (hcr : splitCRLF target = none)
    (hl : ∀ h ∈ hs, h ≠ [] ∧ splitCRLF h = none) (ht : splitCRLF tail = none)
    (hd : w.SetReadDeadline c.ticks = true) (hw : ∀ n, w.Write n = true) :
    handleLoop s w (fuel + 1) c =
      some (Event.read ::
        ((badRequestChunks (w.Now (c.ticks + 1))).map Event.write ++ [Event.close])) := by
  have hrq := ReadRequest_requestLine target (encodeLines hs ++ tail) c.br.ending hp hsp hcr
  rw [← Conn_br_eta c _ hc] at hrq
  obtain ⟨r, hr, hb, _, _⟩ := headerLoop_spec
    ((requestLine target ++ 13 :: 10 :: (encodeLines hs ++ tail)).length + 1)
    ⟨encodeLines hs ++ tail, c.br.ending⟩
    { Method := bytes "GET", URL := target, Proto := bytes "HTTP/1.1" } (by simp; omega)
  have he := headerLoop_unterminated hs tail c.br.ending _ _ r hl ht hr
  rw [← hrq] at hr
  rw [handleLoop_error_received s w fuel c r hd hr he hb, respondBadRequest_accept w _ hw]

/-! ## The response builders -/

theorem HandleGoodRequest_ok_cases (s : Server) (w : World) (now : Time) (req : Request)
    (hurl : req.URL ≠ []) (hstat : w.Stat (resolvedPath s req.URL) ≠ StatResult.otherErr) :
    (s.HandleGoodRequest w now req =
        Except.ok { (({} : Response).HandleNotFound now req) with Proto := req.Proto }) ∨
    (∃ size modTime, s.HandleGoodRequest w now req = Except.ok
      ⟨200, req.Proto, (if req.Close = true then
          mapSet (mapSet (mapSet (mapSet (mapSet [] (bytes "Date") (FormatTime now))
            (bytes "Last-Modified") (FormatTime modTime)) (bytes "Content-Type")
            (w.MIMETypeByExtension (bytes "." ++ (Split (resolvedPath s req.URL) 46).getLastD [])))
            (bytes "Content-Length") (Itoa (Int.ofNat size))) (bytes "Connection")
            (bytes "close")
          else mapSet (mapSet (mapSet (mapSet [] (bytes "Date") (FormatTime now))
            (bytes "Last-Modified") (FormatTime modTime)) (bytes "Content-Type")
            (w.MIMETypeByExtension (bytes "." ++ (Split (resolvedPath s req.URL) 46).getLastD [])))
            (bytes "Content-Length") (Itoa (Int.ofNat size))), none,
        resolvedPath s req.URL⟩) := by
  rw [HandleGoodRequest_path s w now req hurl]
  cases hst : w.Stat (resolvedPath s req.URL) with
  | notExist => left; rfl
  | otherErr => exact absurd hst hstat
  | info isDir size modTime =>
    cases isDir with
    | true => left; rfl
    | false =>
      right
      refine ⟨size, modTime, ?_⟩
      simp only [Bool.false_eq_true, if_false, Response.HandleOK, hst]
      rfl

theorem HandleGoodRequest_fatal (s : Server) (w : World) (now : Time) (req : Request)
    (hurl : req.URL ≠ []) (hstat : w.Stat (resolvedPath s req.URL) = StatResult.otherErr) :
    s.HandleGoodRequest w now req = Except.error Crash.fatal := by
  rw [HandleGoodRequest_path s w now req hurl, hstat]
  rfl

theorem mapGet_notFound (close : Bool) (d : Str) :
    mapGet (if close = true then
        mapSet (mapSet [] (bytes "Date") d) (bytes "Connection") (bytes "close")
      else mapSet [] (bytes "Date") d) (bytes "Date") = some d ∧
    mapGet (if close = true then
        mapSet (mapSet [] (bytes "Date") d) (bytes "Connection") (bytes "close")
      else mapSet [] (bytes "Date") d) (bytes "Connection")
      = (if close = true then some (bytes "close") else none) := by
  cases close
  · exact ⟨rfl, rfl⟩
  · exact ⟨rfl, rfl⟩

theorem mapGet_ok (close : Bool) (d m t l : Str) :
    mapGet (if close = true then
        mapSet (mapSet (mapSet (mapSet (mapSet [] (bytes "Date") d) (bytes "Last-Modified") m)
          (bytes "Content-Type") t) (bytes "Content-Length") l) (bytes "Connection")
          (bytes "close")
      else mapSet (mapSet (mapSet (mapSet [] (bytes "Date") d) (bytes "Last-Modified") m)
          (bytes "Content-Type") t) (bytes "Content-Length") l) (bytes "Date") = some d ∧
    mapGet (if close = true then
        mapSet (mapSet (mapSet (mapSet (mapSet [] (bytes "Date") d) (bytes "Last-Modified") m)
          (bytes "Content-Type") t) (bytes "Content-Length") l) (bytes "Connection")
          (bytes "close")
      else mapSet (mapSet (mapSet (mapSet [] (bytes "Date") d) (bytes "Last-Modified") m)
          (bytes "Content-Type") t) (bytes "Content-Length") l) (bytes "Connection")
      = (if close = true then some (bytes "close") else none) := by
  cases close
  · exact ⟨rfl, rfl⟩
  · exact ⟨rfl, rfl⟩

/-! ## What `ReadRequest` reports, and rounds that crash -/

/-- `ReadRequest` reports `bytesReceived = false` exactly when the first line it reads
is empty; after a non-empty first line an error comes with `bytesReceived = true` and a
nil request. -/
theorem ReadRequest_bytesReceived (br : Reader) :
    ∃ r, ReadRequest br = some r ∧ (r.bytesReceived = false ↔ (ReadLine br).1 = []) ∧
      ((ReadLine br).1 ≠ [] → r.err ≠ none → r.bytesReceived = true ∧ r.req = none) := by
  unfold ReadRequest ReadRequestFuel
  obtain ⟨hle, _⟩ := ReadLine_length br
  rcases hrl : ReadLine br with ⟨line, err, br1⟩
  rw [hrl] at hle
  simp only at hle ⊢
  by_cases h0 : line.length = 0
  · rw [if_pos h0]
    have hl : line = [] := List.length_eq_zero.mp h0
    exact ⟨_, rfl, by simp [hl], fun h => absurd hl h⟩
  rw [if_neg h0]
  have hl : line ≠ [] := fun h => h0 (by simp [h])
  by_cases he : err ≠ none
  · rw [if_pos he]
    exact ⟨_, rfl, by simp [hl], fun _ _ => ⟨rfl, rfl⟩⟩
  rw [if_neg he]
  split
  · rename_i method url proto hsplit
    by_cases hm : method ≠ bytes "GET"
    · rw [if_pos hm]
      exact ⟨_, rfl, by simp [hl], fun _ _ => ⟨rfl, rfl⟩⟩
    rw [if_neg hm]
    by_cases hu : (!HasPrefix url (bytes "/")) = true
    · rw [if_pos hu]
      exact ⟨_, rfl, by simp [hl], fun _ _ => ⟨rfl, rfl⟩⟩
    rw [if_neg hu]
    by_cases hp : proto ≠ bytes "HTTP/1.1"
    · rw [if_pos hp]
      exact ⟨_, rfl, by simp [hl], fun _ _ => ⟨rfl, rfl⟩⟩
    rw [if_neg hp]
    obtain ⟨r, hr, hb, hn, _⟩ := headerLoop_spec (br.data.length + 1) br1
      { Method := method, URL := url, Proto := proto } (by omega)
    exact ⟨r, hr, by simp [hl, hb], fun _ h => ⟨hb, hn h⟩⟩
  · exact ⟨_, rfl, by simp [hl], fun _ _ => ⟨rfl, rfl⟩⟩

/-- A round on a parsed request whose resolution fails with an error other than "does
not exist" writes nothing and ends with the exit of the process. -/
theorem handleLoop_fatal (s : Server) (w : World) (fuel : Nat) (c : Conn) (r : ReadResult)
    (req : Request) (hd : w.SetReadDeadline c.ticks = true)
    (hr : ReadRequest c.br = some r) (he : r.err = none) (hreq : r.req = some req)
    (hstat : w.Stat (resolvedPath s req.URL) = StatResult.otherErr) :
    handleLoop s w (fuel + 1) c = some [Event.read, Event.exit] := by
  obtain ⟨hurl, htake, _, _⟩ := ReadRequest_parsed c.br r req hr he hreq
  have hres := HandleGoodRequest_fatal s w (w.Now (c.ticks + 1)) req hurl hstat
  conv_lhs => unfold handleLoop
  simp [hd, hr, he, hreq, hurl, htake, hres]

theorem respondBadRequest_no_panic (w : World) (c : Conn) :
    Event.panic ∉ respondBadRequest w c := by
  simp [respondBadRequest]

theorem HandleGoodRequest_no_panic (s : Server) (w : World) (now : Time) (req : Request)
    (hurl : req.URL ≠ []) : s.HandleGoodRequest w now req ≠ Except.error Crash.panic := by
  rw [HandleGoodRequest_path s w now req hurl]
  cases w.Stat (resolvedPath s req.URL) with
  | notExist => simp [Except.map]
  | otherErr => simp [Except.map]
  | info isDir size modTime =>
    cases isDir with
    | true => simp [Except.map]
    | false =>
      simp only [Bool.false_eq_true, if_false, Response.HandleOK]
      split <;> simp [Except.map]

/-- No round of the handler's loop panics. -/
theorem handleLoop_no_panic (s : Server) (w : World) (fuel : Nat) (c : Conn)
    (t : List Event) (h : handleLoop s w fuel c = some t) : Event.panic ∉ t := by
  induction fuel generalizing c t with
  | zero => simp [handleLoop] at h
  | succ fuel ih =>
    obtain ⟨r, hr, hspec⟩ := ReadRequest_spec c.br
    unfold handleLoop at h
    simp only [hr] at h
    split_ifs at h with h1 h2 h3 h4 h5 h6
    all_goals try (simp only [Option.some.injEq] at h; subst h; simp [respondBadRequest])
    have hnone : r.err = none := by simpa using h6
    obtain ⟨_, _, rq, hrq, _, hpre, _⟩ := hspec hnone
    have hurl : rq.URL ≠ [] := by
      intro h0
      rw [h0] at hpre
      simp [HasPrefix, bytes] at hpre
    simp only [hrq] at h
    split_ifs at h with h7 h8
    · exact absurd h7 hurl
    · simp only [Option.some.injEq] at h; subst h; simp [respondBadRequest]
    · have hnp := HandleGoodRequest_no_panic s w (w.Now (c.ticks + 1)) rq hurl
      split at h
      · simp only [Option.some.injEq] at h; subst h; simp
      · rename_i hpanic
        exact absurd hpanic hnp
      · rename_i res hres
        cases hrest : handleLoop s w fuel
            ⟨r.br, c.ticks + 1 + 1, (res.Write w.ReadFile w.Write c.writes).calls⟩ with
        | none => rw [hrest] at h; simp at h
        | some rest =>
          rw [hrest] at h
          simp only [Option.map_some', Option.some.injEq] at h
          subst h
          have := ih _ rest hrest
          simp [this]

/-! ## Writing to a connection that may reject a write -/

theorem connWrite_calls (accept : Nat → Bool) (n : Nat) (b : Str) :
    (connWrite accept n b).calls = n + 1 := by
  by_cases ha : accept n = true <;> simp [connWrite, ha]

theorem connWrite_err_none (accept : Nat → Bool) (n : Nat) (b : Str)
    (h : (connWrite accept n b).err = none) : accept n = true := by
  by_cases ha : accept n = true
  · exact ha
  · simp [connWrite, ha] at h

theorem orErr_err_none (r : WriteResult) (msg : String) (h : (r.orErr msg).err = none) :
    r.err = none := by
  by_cases hr : r.err = none
  · exact hr
  · simp [WriteResult.orErr, hr] at h

theorem orErr_calls (r : WriteResult) (msg : String) : (r.orErr msg).calls = r.calls := by
  by_cases hr : r.err = none <;> simp [WriteResult.orErr, hr]

theorem WriteStatusLine_err_none (res : Response) (accept : Nat → Bool) (n : Nat)
    (h : (res.WriteStatusLine accept n).err = none) :
    (res.WriteStatusLine accept n).calls = n + 1 ∧ accept n = true := by
  unfold Response.WriteStatusLine at h ⊢
  by_cases h200 : res.StatusCode = 200
  · rw [if_pos h200] at h ⊢
    exact ⟨by rw [orErr_calls, connWrite_calls],
      connWrite_err_none _ _ _ (orErr_err_none _ _ h)⟩
  rw [if_neg h200] at h ⊢
  by_cases h400 : res.StatusCode = 400
  · rw [if_pos h400] at h ⊢
    exact ⟨by rw [orErr_calls, connWrite_calls],
      connWrite_err_none _ _ _ (orErr_err_none _ _ h)⟩
  rw [if_neg h400] at h ⊢
  by_cases h404 : res.StatusCode = 404
  · rw [if_pos h404] at h ⊢
    exact ⟨by rw [orErr_calls, connWrite_calls],
      connWrite_err_none _ _ _ (orErr_err_none _ _ h)⟩
  rw [if_neg h404] at h
  simp at h

theorem writeHeaderLines_err_none (hd : HeaderMap) (accept : Nat → Bool) (ks : List Str)
    (n : Nat) (h : (writeHeaderLines hd accept ks n).err = none) :
    (writeHeaderLines hd accept ks n).calls = n + ks.length ∧
      ∀ k, n ≤ k → k < n + ks.length → accept k = true := by
  induction ks generalizing n with
  | nil => exact ⟨rfl, fun k h1 h2 => by simp at h2; omega⟩
  | cons x xs ih =>
    by_cases he : (connWrite accept n
        (x ++ bytes ": " ++ (mapGet hd x).getD [] ++ bytes "\r\n")).err = none
    · have ha := connWrite_err_none _ _ _ he
      have hstep : writeHeaderLines hd accept (x :: xs) n =
          ⟨(connWrite accept n (x ++ bytes ": " ++ (mapGet hd x).getD [] ++ bytes "\r\n")).out
            ++ (writeHeaderLines hd accept xs (n + 1)).out,
           (writeHeaderLines hd accept xs (n + 1)).calls,
           (writeHeaderLines hd accept xs (n + 1)).err⟩ := by
        rw [writeHeaderLines]
        simp only [he, ne_eq, not_true_eq_false, if_false, connWrite_calls]
      rw [hstep] at h ⊢
      obtain ⟨hc, hr⟩ := ih (n + 1) h
      refine ⟨by show (writeHeaderLines hd accept xs (n + 1)).calls = _; rw [hc]; simp; omega, ?_⟩
      intro k h1 h2
      by_cases hk : k = n
      · rw [hk]; exact ha
      · exact hr k (by omega) (by simp at h2; omega)
    · have hne : (connWrite accept n
          (x ++ bytes ": " ++ (mapGet hd x).getD [] ++ bytes "\r\n")).err ≠ none := he
      rw [writeHeaderLines] at h
      simp only [hne, if_true, ne_eq, not_false_eq_true] at h
      cases h

theorem WriteSortedHeaders_err_none (res : Response) (accept : Nat → Bool) (n : Nat)
    (h : (res.WriteSortedHeaders accept n).err = none) :
    n ≤ (res.WriteSortedHeaders accept n).calls ∧
      ∀ k, n ≤ k → k < (res.WriteSortedHeaders accept n).calls → accept k = true := by
  by_cases he : (writeHeaderLines res.Header accept
      (sortStrings (res.Header.map Prod.fst)) n).err = none
  · obtain ⟨hc, hr⟩ := writeHeaderLines_err_none _ _ _ _ he
    have hstep : res.WriteSortedHeaders accept n =
        ⟨(writeHeaderLines res.Header accept (sortStrings (res.Header.map Prod.fst)) n).out ++
          ((connWrite accept (n + (sortStrings (res.Header.map Prod.fst)).length)
            (bytes "\r\n")).orErr "failing write header end").out,
         ((connWrite accept (n + (sortStrings (res.Header.map Prod.fst)).length)
            (bytes "\r\n")).orErr "failing write header end").calls,
         ((connWrite accept (n + (sortStrings (res.Header.map Prod.fst)).length)
            (bytes "\r\n")).orErr "failing write header end").err⟩ := by
      simp only [Response.WriteSortedHeaders, he, ne_eq, not_true_eq_false, if_false, hc]
    rw [hstep] at h ⊢
    have ha := connWrite_err_none _ _ _ (orErr_err_none _ _ h)
    simp only [orErr_calls, connWrite_calls]
    refine ⟨by omega, ?_⟩
    intro k h1 h2
    by_cases hk : k = n + (sortStrings (res.Header.map Prod.fst)).length
    · rw [hk]; exact ha
    · exact hr k h1 (by omega)
  · simp [Response.WriteSortedHeaders, he] at h

theorem WriteBody_err_none (res : Response) (readFile : Str → Option Str)
    (accept : Nat → Bool) (n : Nat) (h : (res.WriteBody readFile accept n).err = none) :
    (n ≤ (res.WriteBody readFile accept n).calls ∧
      ∀ k, n ≤ k → k < (res.WriteBody readFile accept n).calls → accept k = true) ∧
    (res.FilePath = [] ∨ ∃ file, readFile res.FilePath = some file) := by
  by_cases hf : res.FilePath = []
  · simp only [Response.WriteBody, hf, if_true]
    exact ⟨⟨le_refl _, fun k h1 h2 => by omega⟩, Or.inl trivial⟩
  · cases hrf : readFile res.FilePath with
    | none => simp [Response.WriteBody, hf, hrf] at h
    | some file =>
      simp only [Response.WriteBody, hf, hrf, if_false] at h ⊢
      have ha := connWrite_err_none _ _ _ (orErr_err_none _ _ h)
      simp only [orErr_calls, connWrite_calls]
      refine ⟨⟨by omega, ?_⟩, Or.inr ⟨file, rfl⟩⟩
      intro k h1 h2
      have hk : k = n := by omega
      rw [hk]; exact ha

/-- When `Response.Write` returns nil, every call of the writer it made was accepted and
the file to serve, if any, could be read. -/
theorem Write_err_none (res : Response) (readFile : Str → Option Str) (accept : Nat → Bool)
    (n : Nat) (h : (res.Write readFile accept n).err = none) :
    (∀ k, n ≤ k → k < (res.Write readFile accept n).calls → accept k = true) ∧
    (res.FilePath = [] ∨ ∃ file, readFile res.FilePath = some file) := by
  by_cases h1 : (res.WriteStatusLine accept n).err = none
  · obtain ⟨hc1, ha1⟩ := WriteStatusLine_err_none res accept n h1
    by_cases h2 : (res.WriteSortedHeaders accept (n + 1)).err = none
    · obtain ⟨hc2, ha2⟩ := WriteSortedHeaders_err_none res accept _ h2
      have hstep : res.Write readFile accept n =
          ⟨(res.WriteStatusLine accept n).out ++ (res.WriteSortedHeaders accept (n + 1)).out ++
            (res.WriteBody readFile accept (res.WriteSortedHeaders accept (n + 1)).calls).out,
           (res.WriteBody readFile accept (res.WriteSortedHeaders accept (n + 1)).calls).calls,
           (res.WriteBody readFile accept (res.WriteSortedHeaders accept (n + 1)).calls).err⟩ := by
        simp only [Response.Write, h1, hc1, h2, ne_eq, not_true_eq_false, if_false]
      rw [hstep] at h ⊢
      obtain ⟨⟨hc3, ha3⟩, hfile⟩ := WriteBody_err_none res readFile accept _ h
      refine ⟨?_, hfile⟩
      intro k hk1 hk2
      by_cases hkn : k = n
      · rw [hkn]; exact ha1
      · by_cases hk3 : k < (res.WriteSortedHeaders accept (n + 1)).calls
        · exact ha2 k (by omega) hk3
        · exact ha3 k (by omega) hk2
    · simp [Response.Write, h1, hc1, h2] at h
  · simp [Response.Write, h1] at h

/-! ## The order of strings and sorted header blocks -/

theorem strLe_refl (a : Str) : strLe a a = true := by
  induction a with
  | nil => rfl
  | cons x xs ih => simp [strLe, ih]

theorem strLe_total (a b : Str) : strLe a b = true ∨ strLe b a = true := by
  induction a generalizing b with
  | nil => left; rfl
  | cons x xs ih =>
    cases b with
    | nil => right; rfl
    | cons y ys =>
      rcases Nat.lt_trichotomy x y with h | h | h
      · left; simp [strLe, h]
      · subst h
        rcases ih ys with h1 | h1
        · left; simp [strLe, h1]
        · right; simp [strLe, h1]
      · right; simp [strLe, h]

theorem strLe_trans (a b c : Str) (h1 : strLe a b = true) (h2 : strLe b c = true) :
    strLe a c = true := by
  induction a generalizing b c with
  | nil => rfl
  | cons x xs ih =>
    cases b with
    | nil => simp [strLe] at h1
    | cons y ys =>
      cases c with
      | nil => simp [strLe] at h2
      | cons z zs =>
        simp only [strLe] at h1 h2 ⊢
        by_cases hxy : x < y
        · by_cases hyz : y < z
          · have : x < z := by omega
            simp [this]
          · simp only [hyz, if_false] at h2
            by_cases hzy : z < y
            · simp [hzy] at h2
            · have : x < z := by omega
              simp [this]
        · simp only [hxy, if_false] at h1
          by_cases hyx : y < x
          · simp [hyx] at h1
          · simp only [hyx, if_false] at h1
            have hxy2 : x = y := by omega
            subst hxy2
            by_cases hxz : x < z
            · simp [hxz]
            · simp only [hxz, if_false] at h2 ⊢
              by_cases hzx : z < x
              · simp [hzx] at h2
              · simp only [hzx, if_false] at h2 ⊢
                exact ih ys zs h1 h2

theorem strLe_antisymm (a b : Str) (h1 : strLe a b = true) (h2 : strLe b a = true) : a = b := by
  induction a generalizing b with
  | nil =>
    cases b with
    | nil => rfl
    | cons y ys => simp [strLe] at h2
  | cons x xs ih =>
    cases b with
    | nil => simp [strLe] at h1
    | cons y ys =>
      simp only [strLe] at h1 h2
      by_cases hxy : x < y
      · have hyx : ¬ y < x := by omega
        simp [hxy, hyx] at h2
      · by_cases hyx : y < x
        · simp [hxy, hyx] at h1
        · simp only [hxy, hyx, if_false] at h1 h2
          have : x = y := by omega
          rw [this, ih ys h1 h2]

theorem sortStrings_sorted (l : List Str) :
    (sortStrings l).Sorted (fun a b => strLe a b = true) :=
  @List.sorted_insertionSort Str (fun a b => strLe a b = true) _
    ⟨strLe_total⟩ ⟨strLe_trans⟩ l

theorem sortStrings_perm (l : List Str) : (sortStrings l).Perm l :=
  List.perm_insertionSort (fun a b => strLe a b = true) l

theorem sortStrings_eq_of_perm (l1 l2 : List Str) (h : l1.Perm l2) :
    sortStrings l1 = sortStrings l2 :=
  @List.eq_of_perm_of_sorted Str (fun a b => strLe a b = true) ⟨strLe_antisymm⟩ _ _
    (((sortStrings_perm l1).trans h).trans (sortStrings_perm l2).symm)
    (sortStrings_sorted l1) (sortStrings_sorted l2)

theorem sortStrings_strict (l : List Str) (hnd : l.Nodup) : (sortStrings l).Sorted strLt := by
  have h1 := sortStrings_sorted l
  have h2 : (sortStrings l).Nodup := (sortStrings_perm l).nodup_iff.mpr hnd
  exact List.Pairwise.and h1 h2

theorem mapGet_eq_some_of_mem (m : HeaderMap) (k v : Str) (hnd : (m.map Prod.fst).Nodup)
    (h : (k, v) ∈ m) : mapGet m k = some v := by
  induction m with
  | nil => simp at h
  | cons p m ih =>
    obtain ⟨k0, v0⟩ := p
    simp only [List.map_cons, List.nodup_cons] at hnd
    rcases List.mem_cons.mp h with h1 | h1
    · simp only [Prod.mk.injEq] at h1
      simp [mapGet, h1.1, h1.2]
    · have hne : k0 ≠ k := by
        intro he
        apply hnd.1
        rw [he]
        exact List.mem_map_of_mem Prod.fst h1
      simp only [mapGet, hne, if_false]
      exact ih hnd.2 h1

theorem mem_of_mapGet_eq_some (m : HeaderMap) (k v : Str) (h : mapGet m k = some v) :
    (k, v) ∈ m := by
  induction m with
  | nil => simp [mapGet] at h
  | cons p m ih =>
    obtain ⟨k0, v0⟩ := p
    simp only [mapGet] at h
    by_cases he : k0 = k
    · simp only [he, if_true, Option.some.injEq] at h
      simp [he, h]
    · simp only [he, if_false] at h
      exact List.mem_cons_of_mem _ (ih h)

theorem mapGet_isSome_iff (m : HeaderMap) (k : Str) :
    k ∈ m.map Prod.fst ↔ ∃ v, mapGet m k = some v := by
  induction m with
  | nil => simp [mapGet]
  | cons p m ih =>
    obtain ⟨k0, v0⟩ := p
    by_cases he : k0 = k
    · simp [mapGet, he]
    · have he2 : ¬ k = k0 := fun h => he h.symm
      simp [mapGet, he, he2, ih]

theorem keys_perm_of_mapGet_eq (m1 m2 : HeaderMap) (h1 : (m1.map Prod.fst).Nodup)
    (h2 : (m2.map Prod.fst).Nodup) (h : ∀ k, mapGet m1 k = mapGet m2 k) :
    (m1.map Prod.fst).Perm (m2.map Prod.fst) := by
  rw [List.perm_ext_iff_of_nodup h1 h2]
  intro k
  rw [mapGet_isSome_iff, mapGet_isSome_iff, h k]

theorem pairs_of_keys (m : HeaderMap) (hnd : (m.map Prod.fst).Nodup) :
    (m.map Prod.fst).map (fun k => (k, (mapGet m k).getD [])) = m := by
  rw [List.map_map]
  conv_rhs => rw [← List.map_id m]
  apply List.map_congr_left
  intro p hp
  obtain ⟨k, v⟩ := p
  simp [mapGet_eq_some_of_mem m k v hnd hp]

theorem WriteSortedHeaders_congr (r1 r2 : Response) (accept : Nat → Bool) (n : Nat)
    (hacc : ∀ k, accept k = true) (h1 : (r1.Header.map Prod.fst).Nodup)
    (h2 : (r2.Header.map Prod.fst).Nodup) (h : ∀ k, mapGet r1.Header k = mapGet r2.Header k) :
    r1.WriteSortedHeaders accept n = r2.WriteSortedHeaders accept n := by
  rw [WriteSortedHeaders_accept r1 accept n hacc, WriteSortedHeaders_accept r2 accept n hacc,
    sortStrings_eq_of_perm _ _ (keys_perm_of_mapGet_eq _ _ h1 h2 h)]
  simp only [h]

theorem mapGet_mapSet (m : HeaderMap) (k v k1 : Str) :
    mapGet (mapSet m k v) k1 = if k = k1 then some v else mapGet m k1 := by
  induction m with
  | nil => simp [mapSet, mapGet]
  | cons p m ih =>
    obtain ⟨k0, v0⟩ := p
    by_cases h0 : k0 = k
    · subst h0
      by_cases h1 : k0 = k1 <;> simp [mapSet, mapGet, h1]
    · by_cases h1 : k0 = k1
      · have h2 : ¬ k = k1 := by
          intro hk
          exact h0 (h1.trans hk.symm)
        subst h1
        simp [mapSet, mapGet, h0, h2]
      · simp [mapSet, mapGet, h0, h1, ih]

theorem mapSet_keys_nodup (m : HeaderMap) (k v : Str) (hnd : (m.map Prod.fst).Nodup) :
    ((mapSet m k v).map Prod.fst).Nodup := by
  induction m with
  | nil => simp [mapSet]
  | cons p m ih =>
    obtain ⟨k0, v0⟩ := p
    simp only [List.map_cons, List.nodup_cons] at hnd
    by_cases h0 : k0 = k
    · subst h0
      simp only [mapSet, if_true, List.map_cons, List.nodup_cons]
      exact hnd
    · simp only [mapSet, h0, if_false, List.map_cons, List.nodup_cons]
      refine ⟨?_, ih hnd.2⟩
      intro hmem
      rw [mapGet_isSome_iff] at hmem
      obtain ⟨v1, hv1⟩ := hmem
      rw [mapGet_mapSet] at hv1
      have h2 : ¬ k = k0 := fun h => h0 h.symm
      simp only [h2, if_false] at hv1
      exact hnd.1 ((mapGet_isSome_iff m k0).mpr ⟨v1, hv1⟩)

theorem foldl_mapSet_nodup (ps : List (Str × Str)) (m : HeaderMap)
    (hnd : (m.map Prod.fst).Nodup) :
    ((ps.foldl (fun m p => mapSet m p.1 p.2) m).map Prod.fst).Nodup := by
  induction ps generalizing m with
  | nil => exact hnd
  | cons p ps ih => exact ih _ (mapSet_keys_nodup m p.1 p.2 hnd)

theorem foldl_mapSet_get (ps : List (Str × Str)) (m : HeaderMap) (k v : Str)
    (hnd : (ps.map Prod.fst).Nodup) :
    mapGet (ps.foldl (fun m p => mapSet m p.1 p.2) m) k = some v ↔
      (k, v) ∈ ps ∨ (k ∉ ps.map Prod.fst ∧ mapGet m k = some v) := by
  induction ps generalizing m with
  | nil => simp
  | cons p ps ih =>
    obtain ⟨k0, v0⟩ := p
    simp only [List.map_cons, List.nodup_cons] at hnd
    simp only [List.foldl_cons]
    rw [ih _ hnd.2, mapGet_mapSet]
    by_cases h0 : k0 = k
    · subst h0
      have hnot : ∀ x, (k0, x) ∉ ps := fun x hx => hnd.1 (List.mem_map_of_mem Prod.fst hx)
      simp [hnot, hnd.1, eq_comm]
    · have h1 : ¬ k = k0 := fun h => h0 h.symm
      simp [h0, h1]

theorem mapOfList_get_perm (ps1 ps2 : List (Str × Str)) (hp : ps1.Perm ps2)
    (hnd : (ps1.map Prod.fst).Nodup) (k : Str) :
    mapGet (mapOfList ps1) k = mapGet (mapOfList ps2) k := by
  have hnd2 : (ps2.map Prod.fst).Nodup := (hp.map Prod.fst).nodup_iff.mp hnd
  apply Option.ext
  intro v
  unfold mapOfList
  rw [Option.mem_def, Option.mem_def, foldl_mapSet_get ps1 [] k v hnd,
    foldl_mapSet_get ps2 [] k v hnd2]
  simp [mapGet, hp.mem_iff]

/-- On a writer that accepts the writes, `WriteSortedHeaders` writes the pairs of the map
in strictly ascending order of the keys, one line each, and then the blank line. -/
theorem WriteSortedHeaders_pairs (res : Response) (accept : Nat → Bool) (n : Nat)
    (hacc : ∀ k, accept k = true) (hnd : (res.Header.map Prod.fst).Nodup) :
    ∃ pairs : List (Str × Str), pairs.Perm res.Header ∧ (pairs.map Prod.fst).Sorted strLt ∧
      res.WriteSortedHeaders accept n =
        ⟨pairs.map (fun p => p.1 ++ bytes ": " ++ p.2 ++ bytes "\r\n") ++ [bytes "\r\n"],
          n + pairs.length + 1, none⟩ := by
  refine ⟨(sortStrings (res.Header.map Prod.fst)).map
    (fun k => (k, (mapGet res.Header k).getD [])), ?_, ?_, ?_⟩
  · have h := (sortStrings_perm (res.Header.map Prod.fst)).map
      (fun k => (k, (mapGet res.Header k).getD []))
    rw [pairs_of_keys res.Header hnd] at h
    exact h
  · rw [List.map_map]
    have hid : (Prod.fst ∘ fun k => (k, (mapGet res.Header k).getD [])) = id := by
      funext k
      rfl
    rw [hid, List.map_id]
    exact sortStrings_strict _ hnd
  · rw [WriteSortedHeaders_accept res accept n hacc, List.map_map, List.length_map]
    rfl

/-! ## Header lines read back with the grammar of `ReadRequest` -/

theorem leadingSpace_space (v : Str) : leadingSpace (32 :: v) = 1 := by
  simp [leadingSpace, spaceEncodings, List.find?, List.isPrefixOf]

theorem TrimSpace_cons_space (v : Str) : TrimSpace (32 :: v) = TrimSpace v := by
  have h : trimLeftFuel (32 :: v).length (32 :: v) = trimLeftFuel v.length v := by
    simp [trimLeftFuel, leadingSpace_space]
  unfold TrimSpace
  rw [h]

theorem parseHeaderLine_pair (k v : Str) (hk : 58 ∉ k) (hv : 58 ∉ v) (hkt : TrimSpace k = k)
    (hvt : TrimSpace v = v) : parseHeaderLine (k ++ bytes ": " ++ v) = some (k, v) := by
  have hline : k ++ bytes ": " ++ v = k ++ 58 :: (32 :: v) := by simp [bytes]
  have hv2 : 58 ∉ (32 :: v) := by simp [hv]
  unfold parseHeaderLine
  rw [hline, Split, splitAux_append 58 k _ hk, Split, splitAux_not_mem 58 _ hv2]
  simp only [TrimSpace_cons_space, hkt, hvt]

theorem parseHeaderLine_colon (k v : Str) (hv : 58 ∈ v) :
    parseHeaderLine (k ++ bytes ": " ++ v) = none := by
  have h1 : 0 < v.count 58 := List.count_pos_iff.mpr hv
  have h2 : (bytes ": ").count 58 = 1 := by decide
  have hcount : (k ++ bytes ": " ++ v).count 58 = k.count 58 + 1 + v.count 58 := by
    rw [List.count_append, List.count_append, h2]
  unfold parseHeaderLine
  split
  · rename_i key val heq
    have := Split_length (k ++ bytes ": " ++ v) 58
    rw [heq] at this
    simp at this
    omega
  · rfl

theorem FormatTime_colon (t : Time) : 58 ∈ FormatTime t := by
  simp [FormatTime, bytes]

theorem builderKeys_plain :
    ∀ k ∈ [bytes "Date", bytes "Last-Modified", bytes "Content-Type", bytes "Content-Length",
      bytes "Connection"], 58 ∉ k ∧ TrimSpace k = k := by
  decide

/-- The header maps of the three response builders: distinct keys, all among the five
keys of the package, and a `Date` header with a formatted time. -/
theorem built_header (res : Response)
    (hbuilt : (∃ res0 now, res = Response.HandleBadRequest res0 now) ∨
      (∃ res0 now req, res = Response.HandleNotFound res0 now req) ∨
      (∃ res0 w now req path, Response.HandleOK res0 w now req path = Except.ok res)) :
    (res.Header.map Prod.fst).Nodup ∧
    (∀ k v, (k, v) ∈ res.Header →
      k ∈ [bytes "Date", bytes "Last-Modified", bytes "Content-Type", bytes "Content-Length",
        bytes "Connection"]) ∧
    (∃ now, (bytes "Date", FormatTime now) ∈ res.Header) := by
  have hd2 : ([bytes "Date", bytes "Connection"] : List Str).Nodup := by decide
  have hd4 : ([bytes "Date", bytes "Last-Modified", bytes "Content-Type",
      bytes "Content-Length"] : List Str).Nodup := by decide
  have hd5 : ([bytes "Date", bytes "Last-Modified", bytes "Content-Type",
      bytes "Content-Length", bytes "Connection"] : List Str).Nodup := by decide
  rcases hbuilt with ⟨res0, now, h⟩ | ⟨res0, now, req, h⟩ | ⟨res0, w, now, req, path, h⟩
  · have hh : res.Header = [(bytes "Date", FormatTime now), (bytes "Connection", bytes "close")] := by
      rw [h]; rfl
    rw [hh]
    refine ⟨hd2, ?_, now, by simp⟩
    intro k v hkv
    simp only [List.mem_cons, Prod.mk.injEq, List.mem_singleton, List.not_mem_nil, or_false] at hkv
    rcases hkv with h1 | h1 <;> simp [h1.1]
  · cases hc : req.Close with
    | false =>
      have hh : res.Header = [(bytes "Date", FormatTime now)] := by
        rw [h]; simp only [Response.HandleNotFound, hc]; rfl
      rw [hh]
      refine ⟨by simp, ?_, now, by simp⟩
      intro k v hkv
      simp only [List.mem_singleton, Prod.mk.injEq] at hkv
      simp [hkv.1]
    | true =>
      have hh : res.Header = [(bytes "Date", FormatTime now), (bytes "Connection", bytes "close")] := by
        rw [h]; simp only [Response.HandleNotFound, hc]; rfl
      rw [hh]
      refine ⟨hd2, ?_, now, by simp⟩
      intro k v hkv
      simp only [List.mem_cons, Prod.mk.injEq, List.mem_singleton, List.not_mem_nil, or_false] at hkv
      rcases hkv with h1 | h1 <;> simp [h1.1]
  · unfold Response.HandleOK at h
    cases hst : w.Stat path with
    | notExist => rw [hst] at h; simp at h
    | otherErr => rw [hst] at h; simp at h
    | info isDir size modTime =>
      rw [hst] at h
      simp only [Except.ok.injEq] at h
      cases hc : req.Close with
      | false =>
        have hh : res.Header = [(bytes "Date", FormatTime now),
            (bytes "Last-Modified", FormatTime modTime),
            (bytes "Content-Type",
              w.MIMETypeByExtension (bytes "." ++ (Split path 46).getLastD [])),
            (bytes "Content-Length", Itoa (Int.ofNat size))] := by
          rw [← h]; simp only [hc]; rfl
        rw [hh]
        refine ⟨hd4, ?_, now, by simp⟩
        intro k v hkv
        simp only [List.mem_cons, Prod.mk.injEq, List.mem_singleton, List.not_mem_nil,
          or_false] at hkv
        rcases hkv with h1 | h1 | h1 | h1 <;> simp [h1.1]
      | true =>
        have hh : res.Header = [(bytes "Date", FormatTime now),
            (bytes "Last-Modified", FormatTime modTime),
            (bytes "Content-Type",
              w.MIMETypeByExtension (bytes "." ++ (Split path 46).getLastD [])),
            (bytes "Content-Length", Itoa (Int.ofNat size)),
            (bytes "Connection", bytes "close")] := by
          rw [← h]; simp only [hc]; rfl
        rw [hh]
        refine ⟨hd5, ?_, now, by simp⟩
        intro k v hkv
        simp only [List.mem_cons, Prod.mk.injEq, List.mem_singleton, List.not_mem_nil,
          or_false] at hkv
        rcases hkv with h1 | h1 | h1 | h1 | h1 <;> simp [h1.1]

/-! ## The claims -/

/-- C1: for every document root, every file system and every well-formed request (request
line `GET <target> HTTP/1.1` with a target that starts with a slash, non-empty header
lines with one colon each, a non-empty last `Host` header, the empty line) whose
resolved path is a regular file with the content `content`, the round of the handler's
loop that reads it (when the deadline is set and the connection accepts the writes)
writes the status line `HTTP/1.1 200 OK`, header lines among which `Content-Length` is
the decimal length of `content`, the blank line and `content` itself; what follows is
the rest of the loop on the remaining bytes. -/
theorem handleLoop_serves_file (s : Server) (w : World) (fuel : Nat) (c : Conn)
    (target : Str) (hs : List Str) (rest content : Str) (modTime : Time)
    (hc : c.br.data = requestBytes target hs ++ rest)
    (hp : target.head? = some 47) (hsp : 32 ∉ target) (hcr : splitCRLF target = none)
    (hl : ∀ h ∈ hs, h ≠ [] ∧ splitCRLF h = none) (hcolon : ∀ h ∈ hs, h.count 58 = 1)
    (hhost : ∃ v, lastHeader (bytes "Host") hs = some v ∧ v ≠ [])
    (hstat : w.Stat (resolvedPath s target) = StatResult.info false content.length modTime)
    (hread : w.ReadFile (resolvedPath s target) = some content)
    (hd : w.SetReadDeadline c.ticks = true) (hw : ∀ n, w.Write n = true)
    (hfuel : rest.length < fuel) :
    ∃ later n, handleLoop s w fuel ⟨⟨rest, c.br.ending⟩, c.ticks + 2, n⟩ = some later ∧
      handleLoop s w (fuel + 1) c = some (Event.read ::
        Event.write (bytes "HTTP/1.1 200 OK\r\n") ::
        ((okHeaderLines (decide (lastHeader (bytes "Connection") hs = some (bytes "close")))
            content.length
            (w.MIMETypeByExtension (bytes "." ++ (Split (resolvedPath s target) 46).getLastD []))
            (w.Now (c.ticks + 1)) modTime).map Event.write
          ++ Event.write (bytes "\r\n") :: Event.write content :: later)) := by
  obtain ⟨r0, hf, hhost0, hclose0, _, hurl0, hproto0⟩ :=
    foldHeaders_spec hs { Method := bytes "GET", URL := target, Proto := bytes "HTTP/1.1" } hcolon
  obtain ⟨v, hv, hvne⟩ := hhost
  have hh : ¬ r0.Host.length = 0 := by
    rw [hhost0, hv]
    simpa using hvne
  have hrr := (ReadRequest_request target hs rest c.br.ending hp hsp hcr hl).1 r0 hf
  rw [← Conn_br_eta c _ hc, if_neg hh] at hrr
  have hurl : r0.URL = target := hurl0
  have hclose : r0.Close = decide (lastHeader (bytes "Connection") hs = some (bytes "close")) := by
    rw [hclose0]
    cases lastHeader (bytes "Connection") hs <;> simp
  have hne : r0.URL ≠ [] := by
    rw [hurl]
    intro h0
    simp [h0] at hp
  obtain ⟨res, hres, hout⟩ := HandleGoodRequest_file s w (w.Now (c.ticks + 1)) r0 content modTime
    c.writes hne hproto0 (by rw [hurl]; exact hstat) (by rw [hurl]; exact hread) hw
  have hlater := handleLoop_isSome s w fuel
    ⟨⟨rest, c.br.ending⟩, c.ticks + 2, (res.Write w.ReadFile w.Write c.writes).calls⟩ hfuel
  obtain ⟨later, hlat⟩ := Option.isSome_iff_exists.mp hlater
  refine ⟨later, _, hlat, ?_⟩
  rw [handleLoop_good s w fuel c _ r0 res hd hrr rfl rfl hres]
  simp only [hlat, Option.map_some', hout, hurl, hclose]
  simp

/-- C1 at the request `GET /index.html HTTP/1.1`, `Host: x` in the concrete environment,
where `root/index.html` is `0123456789`: status 200, `Content-Length: 10` and the body
`0123456789`; then the handler reads again, finds the end of the stream and closes. -/
theorem handleLoop_serves_file_witness :
    exampleServer.HandleConnection exampleWorld
        ⟨bytes "GET /index.html HTTP/1.1\r\nHost: x\r\n\r\n", Err.EOF⟩ =
      some [Event.read, Event.write (bytes "HTTP/1.1 200 OK\r\n"),
        Event.write (bytes "Content-Length: 10\r\n"),
        Event.write (bytes "Content-Type: text/html; charset=utf-8\r\n"),
        Event.write (bytes "Date: Mon, 02 Jan 2006 15:04:05 GMT\r\n"),
        Event.write (bytes "Last-Modified: Mon, 02 Jan 2006 15:04:05 GMT\r\n"),
        Event.write (bytes "\r\n"), Event.write (bytes "0123456789"),
        Event.read, Event.close] := by
  obtain ⟨later, n, hlater, h⟩ := handleLoop_serves_file exampleServer exampleWorld 38
    ⟨⟨bytes "GET /index.html HTTP/1.1\r\nHost: x\r\n\r\n", Err.EOF⟩, 0, 0⟩
    (bytes "/index.html") [bytes "Host: x"] [] (bytes "0123456789") exampleTime
    (by decide) (by decide) (by decide) (by decide) (by decide) (by decide)
    ⟨bytes "x", by decide, by decide⟩ (by decide) (by decide) rfl (fun _ => rfl) (by decide)
  have h2 : handleLoop exampleServer exampleWorld 38 ⟨⟨[], Err.EOF⟩, 0 + 2, n⟩
      = some [Event.read, Event.close] := by
    simp [handleLoop, exampleWorld, ReadRequest, ReadRequestFuel, ReadLine, splitCRLF]
  rw [h2] at hlater
  simp only [Option.some.injEq] at hlater
  subst hlater
  have h3 : exampleServer.HandleConnection exampleWorld
      ⟨bytes "GET /index.html HTTP/1.1\r\nHost: x\r\n\r\n", Err.EOF⟩
      = handleLoop exampleServer exampleWorld (38 + 1)
        ⟨⟨bytes "GET /index.html HTTP/1.1\r\nHost: x\r\n\r\n", Err.EOF⟩, 0, 0⟩ := by
    decide
  rw [h3, h]
  decide

/-- C2: for every successfully parsed request whose target (with `index.html` appended
when it ends in a slash), joined to the document root, does not exist or is a
directory, `HandleGoodRequest` returns a response with status code 404 and an empty
`FilePath`; written to a connection that accepts the writes, it is the status line
`HTTP/1.1 404 Not Found`, the header lines and the blank line, with no byte after it. -/
theorem HandleGoodRequest_not_found (s : Server) (w : World) (now : Time) (br : Reader)
    (r : ReadResult) (req : Request) (readFile : Str → Option Str) (accept : Nat → Bool)
    (n : Nat) (hr : ReadRequest br = some r) (he : r.err = none) (hreq : r.req = some req)
    (hstat : w.Stat (resolvedPath s req.URL) = StatResult.notExist ∨
      ∃ size modTime, w.Stat (resolvedPath s req.URL) = StatResult.info true size modTime)
    (hacc : ∀ n, accept n = true) :
    ∃ res, s.HandleGoodRequest w now req = Except.ok res ∧ res.StatusCode = 404 ∧
      res.FilePath = [] ∧ (res.Write readFile accept n).err = none ∧
      (res.Write readFile accept n).out =
        bytes "HTTP/1.1 404 Not Found\r\n" ::
          (notFoundHeaderLines req.Close now ++ [bytes "\r\n"]) := by
  obtain ⟨hurl, _, hproto, _⟩ := ReadRequest_parsed br r req hr he hreq
  have hres : s.HandleGoodRequest w now req =
      Except.ok { (({} : Response).HandleNotFound now req) with Proto := req.Proto } := by
    rw [HandleGoodRequest_path s w now req hurl]
    rcases hstat with h | ⟨size, modTime, h⟩
    · rw [h]; rfl
    · rw [h]; rfl
  refine ⟨_, hres, rfl, rfl, ?_, ?_⟩
  · rw [Write_accept_404 _ readFile accept n hacc rfl rfl]
  · rw [Write_accept_404 _ readFile accept n hacc rfl rfl]
    simp only [Response.HandleNotFound, notFound_lines, hproto]
    simp [bytes]

/-- C2 at the request `GET /missing HTTP/1.1`, `Host: x` in the concrete environment:
the response is 404 and its bytes end with the blank line. -/
theorem HandleGoodRequest_not_found_witness :
    ∃ r req res, ReadRequest ⟨bytes "GET /missing HTTP/1.1\r\nHost: x\r\n\r\n", Err.EOF⟩ = some r ∧
      r.err = none ∧ r.req = some req ∧
      exampleServer.HandleGoodRequest exampleWorld exampleTime req = Except.ok res ∧
      res.StatusCode = 404 ∧ res.FilePath = [] ∧
      (res.Write exampleWorld.ReadFile exampleWorld.Write 0).out =
        [bytes "HTTP/1.1 404 Not Found\r\n", bytes "Date: Mon, 02 Jan 2006 15:04:05 GMT\r\n",
          bytes "\r\n"] := by
  have hr : ReadRequest ⟨bytes "GET /missing HTTP/1.1\r\nHost: x\r\n\r\n", Err.EOF⟩ =
      some ⟨some ⟨bytes "GET", bytes "/missing", bytes "HTTP/1.1", [], bytes "x", false⟩,
        true, none, ⟨[], Err.EOF⟩⟩ := by decide
  obtain ⟨res, h1, h2, h3, _, h5⟩ := HandleGoodRequest_not_found exampleServer exampleWorld
    exampleTime _ _ _ exampleWorld.ReadFile exampleWorld.Write 0 hr rfl rfl
    (Or.inl (by decide)) (fun _ => rfl)
  refine ⟨_, _, res, hr, rfl, rfl, h1, h2, h3, ?_⟩
  rw [h5]
  decide

/-- C3: the handler on the request line with zero characters before its CRLF. The claim
asks for one response `400 Bad Request`; `ReadRequest` reports the empty line as an end
of stream with no byte received, and the handler closes without writing. -/
theorem HandleConnection_empty_request_line :
    ReadRequest ⟨bytes "\r\n", Err.EOF⟩ = some ⟨some {}, false, some Err.EOF, ⟨[], Err.EOF⟩⟩ ∧
    exampleServer.HandleConnection exampleWorld ⟨bytes "\r\n", Err.EOF⟩
      = some [Event.read, Event.close] := by
  decide

/-- C4: the handler on a request with the header `Connection: close` followed by a second
request. The claim asks for one response and the close; the handler answers the first
request (announcing `Connection: close`), reads again and answers the second request. -/
theorem HandleConnection_reads_after_close :
    exampleServer.HandleConnection exampleWorld
        ⟨bytes ("GET /index.html HTTP/1.1\r\nHost: x\r\nConnection: close\r\n\r\n" ++
          "GET /missing HTTP/1.1\r\nHost: x\r\n\r\n"), Err.EOF⟩ =
      some [Event.read, Event.write (bytes "HTTP/1.1 200 OK\r\n"),
        Event.write (bytes "Connection: close\r\n"),
        Event.write (bytes "Content-Length: 10\r\n"),
        Event.write (bytes "Content-Type: text/html; charset=utf-8\r\n"),
        Event.write (bytes "Date: Mon, 02 Jan 2006 15:04:05 GMT\r\n"),
        Event.write (bytes "Last-Modified: Mon, 02 Jan 2006 15:04:05 GMT\r\n"),
        Event.write (bytes "\r\n"), Event.write (bytes "0123456789"),
        Event.read, Event.write (bytes "HTTP/1.1 404 Not Found\r\n"),
        Event.write (bytes "Date: Mon, 02 Jan 2006 15:04:05 GMT\r\n"),
        Event.write (bytes "\r\n"), Event.read, Event.close] := by
  decide

/-- C5: the handler on a stream that ends, by a read timeout, after the bytes of an empty
line and of a partial header line. The claim asks for one response `400 Bad Request`,
since bytes of the pending request were received; the handler closes without writing. -/
theorem HandleConnection_silent_after_bytes :
    exampleServer.HandleConnection exampleWorld ⟨bytes "\r\nHost: x", Err.timeout⟩
      = some [Event.read, Event.close] := by
  decide

/-- C6: for every request with a valid request line and a header block of non-empty
lines, ended by the empty line, in which no line has the name `Host`, the round of the
handler's loop that reads it (when the deadline is set and the connection accepts the
writes) writes exactly the response `400 Bad Request` and closes the connection. -/
theorem handleLoop_missing_host (s : Server) (w : World) (fuel : Nat) (c : Conn)
    (target : Str) (hs : List Str) (rest : Str)
    (hc : c.br.data = requestBytes target hs ++ rest)
    (hp : target.head? = some 47) (hsp : 32 ∉ target) (hcr : splitCRLF target = none)
    (hl : ∀ h ∈ hs, h ≠ [] ∧ splitCRLF h = none)
    (hn : ∀ h ∈ hs, headerName h ≠ bytes "Host")
    (hd : w.SetReadDeadline c.ticks = true) (hw : ∀ n, w.Write n = true) :
    handleLoop s w (fuel + 1) c =
      some (Event.read ::
        ((badRequestChunks (w.Now (c.ticks + 1))).map Event.write ++ [Event.close])) := by
  obtain ⟨h1, h2⟩ := ReadRequest_request target hs rest c.br.ending hp hsp hcr hl
  rw [← Conn_br_eta c _ hc] at h1 h2
  cases hf : foldHeaders { Method := bytes "GET", URL := target, Proto := bytes "HTTP/1.1" } hs with
  | none =>
    obtain ⟨br1, h⟩ := h2 hf
    rw [handleLoop_parse_error s w fuel c _ "malformed header" hd h rfl,
      respondBadRequest_accept w _ hw]
  | some r0 =>
    have hh : r0.Host.length = 0 := by
      rw [foldHeaders_no_host hs _ r0 hn hf]
      rfl
    have h := h1 r0 hf
    rw [if_pos hh] at h
    rw [handleLoop_parse_error s w fuel c _ "there is no host" hd h rfl,
      respondBadRequest_accept w _ hw]

/-- C6 at the request `GET /index.html HTTP/1.1` with the only header `Accept: text/html`
in the concrete environment. -/
theorem handleLoop_missing_host_witness :
    exampleServer.HandleConnection exampleWorld
        ⟨bytes "GET /index.html HTTP/1.1\r\nAccept: text/html\r\n\r\n", Err.EOF⟩ =
      some [Event.read, Event.write (bytes "HTTP/1.1 400 Bad Request\r\n"),
        Event.write (bytes "Connection: close\r\n"),
        Event.write (bytes "Date: Mon, 02 Jan 2006 15:04:05 GMT\r\n"),
        Event.write (bytes "\r\n"), Event.close] := by
  have h := handleLoop_missing_host exampleServer exampleWorld 47
    ⟨⟨bytes "GET /index.html HTTP/1.1\r\nAccept: text/html\r\n\r\n", Err.EOF⟩, 0, 0⟩
    (bytes "/index.html") [bytes "Accept: text/html"] []
    (by decide) (by decide) (by decide) (by decide) (by decide) (by decide) rfl (fun _ => rfl)
  have h3 : exampleServer.HandleConnection exampleWorld
      ⟨bytes "GET /index.html HTTP/1.1\r\nAccept: text/html\r\n\r\n", Err.EOF⟩
      = handleLoop exampleServer exampleWorld (47 + 1)
        ⟨⟨bytes "GET /index.html HTTP/1.1\r\nAccept: text/html\r\n\r\n", Err.EOF⟩, 0, 0⟩ := by
    decide
  rw [h3, h]
  decide

/-- C7: for every input stream `ReadRequest` returns, and whenever its error is nil,
`bytesReceived` is true and the returned request is valid: the method is `GET`, the URL
starts with `/`, the protocol is `HTTP/1.1`, the host is not empty, and the first line
read is the method, a space, the URL, a space and the protocol. -/
theorem ReadRequest_nil_error_valid (br : Reader) :
    ∃ r, ReadRequest br = some r ∧
      (r.err = none → r.bytesReceived = true ∧
        ∃ req, r.req = some req ∧ req.Method = bytes "GET" ∧
          HasPrefix req.URL (bytes "/") = true ∧ req.Proto = bytes "HTTP/1.1" ∧
          req.Host ≠ [] ∧
          (ReadLine br).1 = req.Method ++ bytes " " ++ req.URL ++ bytes " " ++ req.Proto) := by
  obtain ⟨r, hr, h⟩ := ReadRequest_spec br
  exact ⟨r, hr, fun he => ⟨(h he).1, (h he).2.2⟩⟩

/-- C7 at the request `GET /index.html HTTP/1.1`, `Host: x`: the error is nil and the
returned request is valid. -/
theorem ReadRequest_nil_error_valid_witness :
    ∃ r, ReadRequest ⟨bytes "GET /index.html HTTP/1.1\r\nHost: x\r\n\r\n", Err.EOF⟩ = some r ∧
      r.err = none ∧ r.bytesReceived = true ∧
      ∃ req, r.req = some req ∧ req.Method = bytes "GET" ∧
        HasPrefix req.URL (bytes "/") = true ∧ req.Proto = bytes "HTTP/1.1" ∧ req.Host ≠ [] ∧
        (ReadLine ⟨bytes "GET /index.html HTTP/1.1\r\nHost: x\r\n\r\n", Err.EOF⟩).1
          = req.Method ++ bytes " " ++ req.URL ++ bytes " " ++ req.Proto := by
  obtain ⟨r, hr, h⟩ :=
    ReadRequest_nil_error_valid ⟨bytes "GET /index.html HTTP/1.1\r\nHost: x\r\n\r\n", Err.EOF⟩
  have he : (ReadRequest ⟨bytes "GET /index.html HTTP/1.1\r\nHost: x\r\n\r\n", Err.EOF⟩).bind
      (fun r => r.err) = none := by decide
  rw [hr] at he
  exact ⟨r, hr, he, (h he).1, (h he).2⟩

/-- C8: for every request with a valid request line and a header block of non-empty
lines ended by the empty line, if some header line does not contain exactly one colon,
`ReadRequest` returns a nil request, the error "malformed header" and
`bytesReceived = true`. -/
theorem ReadRequest_rejects_colon_count (target : Str) (hs : List Str) (rest : Str) (e : Err)
    (hp : target.head? = some 47) (hsp : 32 ∉ target) (hcr : splitCRLF target = none)
    (hl : ∀ h ∈ hs, h ≠ [] ∧ splitCRLF h = none) (hbad : ∃ h ∈ hs, h.count 58 ≠ 1) :
    ∃ r, ReadRequest ⟨requestBytes target hs ++ rest, e⟩ = some r ∧ r.req = none ∧
      r.err = some (Err.new "malformed header") ∧ r.bytesReceived = true := by
  obtain ⟨br1, h⟩ := (ReadRequest_request target hs rest e hp hsp hcr hl).2
    (foldHeaders_none hs _ hbad)
  exact ⟨_, h, rfl, rfl, rfl⟩

/-- C8 at the request `GET / HTTP/1.1` with the header line `Host: localhost:8080`. -/
theorem ReadRequest_rejects_colon_count_witness :
    (∃ h ∈ [bytes "Host: localhost:8080"], h.count 58 ≠ 1) ∧
    ∃ r, ReadRequest ⟨requestBytes (bytes "/") [bytes "Host: localhost:8080"] ++ [], Err.EOF⟩
        = some r ∧ r.req = none ∧
      r.err = some (Err.new "malformed header") ∧ r.bytesReceived = true :=
  ⟨by decide, ReadRequest_rejects_colon_count (bytes "/") [bytes "Host: localhost:8080"] []
    Err.EOF (by decide) (by decide) (by decide) (by decide) (by decide)⟩

/-- C9: for every request with a valid request line and a header block of non-empty
lines ended by the empty line, `ReadRequest` returns, and when the request is parsed
(nil error), `Close` is true if and only if the block has a `Connection` header and the
trimmed value of the last one is exactly `close`, and `Host` is the trimmed value of the
last `Host` header. -/
theorem ReadRequest_close_and_host (target : Str) (hs : List Str) (rest : Str) (e : Err)
    (hp : target.head? = some 47) (hsp : 32 ∉ target) (hcr : splitCRLF target = none)
    (hl : ∀ h ∈ hs, h ≠ [] ∧ splitCRLF h = none) :
    ∃ r, ReadRequest ⟨requestBytes target hs ++ rest, e⟩ = some r ∧
      (r.err = none → ∃ req, r.req = some req ∧
        (req.Close = true ↔ lastHeader (bytes "Connection") hs = some (bytes "close")) ∧
        lastHeader (bytes "Host") hs = some req.Host) := by
  obtain ⟨h1, h2⟩ := ReadRequest_request target hs rest e hp hsp hcr hl
  cases hf : foldHeaders { Method := bytes "GET", URL := target, Proto := bytes "HTTP/1.1" } hs with
  | none =>
    obtain ⟨br1, h⟩ := h2 hf
    exact ⟨_, h, fun he => by simp at he⟩
  | some r0 =>
    refine ⟨_, h1 r0 hf, ?_⟩
    intro he
    by_cases hh : r0.Host.length = 0
    · simp [hh] at he
    · obtain ⟨r1, hr1, hhost, hclose, _⟩ :=
        foldHeaders_spec hs { Method := bytes "GET", URL := target, Proto := bytes "HTTP/1.1" }
          (foldHeaders_some_count hs _ r0 hf)
      rw [hf] at hr1
      simp only [Option.some.injEq] at hr1
      subst hr1
      refine ⟨r0, by simp [hh], ?_, ?_⟩
      · rw [hclose]
        cases lastHeader (bytes "Connection") hs with
        | none => simp
        | some v => simp
      · cases hlh : lastHeader (bytes "Host") hs with
        | none =>
          rw [hlh] at hhost
          simp at hhost
          simp [hhost] at hh
        | some v =>
          rw [hlh] at hhost
          simp at hhost
          rw [hhost]

/-- C9 at a request with two `Connection` headers, the last one ` close `, and two `Host`
headers: the request is parsed, `Close` is true and `Host` is the last value. -/
theorem ReadRequest_close_and_host_witness :
    ∃ r, ReadRequest ⟨requestBytes (bytes "/")
        [bytes "Host: a", bytes "Connection: keep-alive", bytes "Host: b",
          bytes "Connection:  close "] ++ [], Err.EOF⟩ = some r ∧
      r.err = none ∧ ∃ req, r.req = some req ∧ req.Close = true ∧ req.Host = bytes "b" := by
  obtain ⟨r, hr, h⟩ := ReadRequest_close_and_host (bytes "/")
    [bytes "Host: a", bytes "Connection: keep-alive", bytes "Host: b",
      bytes "Connection:  close "] [] Err.EOF (by decide) (by decide) (by decide) (by decide)
  have he : (ReadRequest ⟨requestBytes (bytes "/")
      [bytes "Host: a", bytes "Connection: keep-alive", bytes "Host: b",
        bytes "Connection:  close "] ++ [], Err.EOF⟩).bind (fun r => r.err) = none := by
    decide
  rw [hr] at he
  obtain ⟨req, hreq, hc, hh⟩ := h he
  refine ⟨r, hr, he, req, hreq, hc.mpr (by decide), ?_⟩
  have hv : lastHeader (bytes "Host")
      [bytes "Host: a", bytes "Connection: keep-alive", bytes "Host: b",
        bytes "Connection:  close "] = some (bytes "b") := by decide
  rw [hv] at hh
  simpa using hh.symm

/-- C10: `ReadRequest` on a request with the header lines `Host: a`, `host: b` and
`CONNECTION: close`. The claim asks that the lower-case and upper-case names be routed
to `Host` and `Close` and kept out of the `Header` map; the request is parsed with
`Close = false`, and the map holds the keys `Host` and `Connection`. -/
theorem ReadRequest_stores_host_in_map :
    ReadRequest ⟨bytes "GET / HTTP/1.1\r\nHost: a\r\nhost: b\r\nCONNECTION: close\r\n\r\n",
        Err.EOF⟩ =
      some ⟨some ⟨bytes "GET", bytes "/", bytes "HTTP/1.1",
          [(bytes "Host", bytes "b"), (bytes "Connection", bytes "close")], bytes "a", false⟩,
        true, none, ⟨[], Err.EOF⟩⟩ := by
  decide

/-- C11: for every response and every writer that accepts the writes, `WriteStatusLine`
writes exactly the protocol, a space, the decimal code, a space, the reason and CRLF and
returns nil when the code is 200 (`OK`), 400 (`Bad Request`) or 404 (`Not Found`); for
every other code `WriteStatusLine` and `Write` return the error "not the code" without
a call of the writer, so no byte is written. -/
theorem WriteStatusLine_codes (res : Response) (readFile : Str → Option Str)
    (accept : Nat → Bool) (n : Nat) (hacc : ∀ k, accept k = true) :
    (res.StatusCode = 200 → res.WriteStatusLine accept n =
      ⟨[res.Proto ++ bytes " " ++ bytes "200" ++ bytes " " ++ bytes "OK" ++ bytes "\r\n"],
        n + 1, none⟩) ∧
    (res.StatusCode = 400 → res.WriteStatusLine accept n =
      ⟨[res.Proto ++ bytes " " ++ bytes "400" ++ bytes " " ++ bytes "Bad Request"
        ++ bytes "\r\n"], n + 1, none⟩) ∧
    (res.StatusCode = 404 → res.WriteStatusLine accept n =
      ⟨[res.Proto ++ bytes " " ++ bytes "404" ++ bytes " " ++ bytes "Not Found"
        ++ bytes "\r\n"], n + 1, none⟩) ∧
    (res.StatusCode ≠ 200 → res.StatusCode ≠ 400 → res.StatusCode ≠ 404 →
      res.WriteStatusLine accept n = ⟨[], n, some (Err.new "not the code")⟩ ∧
      res.Write readFile accept n = ⟨[], n, some (Err.new "not the code")⟩) := by
  refine ⟨?_, ?_, ?_, ?_⟩
  · intro h
    simp only [Response.WriteStatusLine, h, if_true, connWrite_accept _ _ _ hacc,
      WriteResult.orErr, Itoa_codes.1]
    simp [bytes]
  · intro h
    simp only [Response.WriteStatusLine, h, connWrite_accept _ _ _ hacc,
      WriteResult.orErr, Itoa_codes.2.1]
    simp [bytes]
  · intro h
    simp only [Response.WriteStatusLine, h, connWrite_accept _ _ _ hacc,
      WriteResult.orErr, Itoa_codes.2.2]
    simp [bytes]
  · intro h1 h2 h3
    have hs : res.WriteStatusLine accept n = ⟨[], n, some (Err.new "not the code")⟩ := by
      simp [Response.WriteStatusLine, h1, h2, h3]
    refine ⟨hs, ?_⟩
    simp [Response.Write, hs]

/-- C11 at the codes 200, 400, 404 and 500 with the protocol `HTTP/1.1`. -/
theorem WriteStatusLine_codes_witness :
    (⟨200, bytes "HTTP/1.1", [], none, []⟩ : Response).WriteStatusLine (fun _ => true) 0
      = ⟨[bytes "HTTP/1.1 200 OK\r\n"], 1, none⟩ ∧
    (⟨400, bytes "HTTP/1.1", [], none, []⟩ : Response).WriteStatusLine (fun _ => true) 0
      = ⟨[bytes "HTTP/1.1 400 Bad Request\r\n"], 1, none⟩ ∧
    (⟨404, bytes "HTTP/1.1", [], none, []⟩ : Response).WriteStatusLine (fun _ => true) 0
      = ⟨[bytes "HTTP/1.1 404 Not Found\r\n"], 1, none⟩ ∧
    (⟨500, bytes "HTTP/1.1", [], none, []⟩ : Response).Write (fun _ => none) (fun _ => true) 0
      = ⟨[], 0, some (Err.new "not the code")⟩ :=
  ⟨(WriteStatusLine_codes ⟨200, bytes "HTTP/1.1", [], none, []⟩ (fun _ => none)
      (fun _ => true) 0 (fun _ => rfl)).1 rfl,
    (WriteStatusLine_codes ⟨400, bytes "HTTP/1.1", [], none, []⟩ (fun _ => none)
      (fun _ => true) 0 (fun _ => rfl)).2.1 rfl,
    (WriteStatusLine_codes ⟨404, bytes "HTTP/1.1", [], none, []⟩ (fun _ => none)
      (fun _ => true) 0 (fun _ => rfl)).2.2.1 rfl,
    ((WriteStatusLine_codes ⟨500, bytes "HTTP/1.1", [], none, []⟩ (fun _ => none)
      (fun _ => true) 0 (fun _ => rfl)).2.2.2 (by decide) (by decide) (by decide)).2⟩

/-- C12: for every response header map (distinct keys) and every writer that accepts the
writes, `WriteSortedHeaders` writes exactly the lines key, `: `, value, CRLF of the
map's pairs in strictly ascending byte-wise order of the keys, followed by one CRLF;
the output depends only on the pairs of the map: two maps with the same lookups, and in
particular two maps built by inserting the same pairs in different orders, are written
as the same bytes. -/
theorem WriteSortedHeaders_sorted_output (res : Response) (accept : Nat → Bool) (n : Nat)
    (hacc : ∀ k, accept k = true) (hnd : (res.Header.map Prod.fst).Nodup) :
    (∃ pairs : List (Str × Str), pairs.Perm res.Header ∧ (pairs.map Prod.fst).Sorted strLt ∧
      res.WriteSortedHeaders accept n =
        ⟨pairs.map (fun p => p.1 ++ bytes ": " ++ p.2 ++ bytes "\r\n") ++ [bytes "\r\n"],
          n + pairs.length + 1, none⟩) ∧
    (∀ res2 : Response, (res2.Header.map Prod.fst).Nodup →
      (∀ k, mapGet res2.Header k = mapGet res.Header k) →
      res2.WriteSortedHeaders accept n = res.WriteSortedHeaders accept n) ∧
    (∀ (ps1 ps2 : List (Str × Str)) (r1 r2 : Response), ps1.Perm ps2 →
      (ps1.map Prod.fst).Nodup → r1.Header = mapOfList ps1 → r2.Header = mapOfList ps2 →
      r1.WriteSortedHeaders accept n = r2.WriteSortedHeaders accept n) := by
  refine ⟨WriteSortedHeaders_pairs res accept n hacc hnd, ?_, ?_⟩
  · intro res2 hnd2 hget
    exact WriteSortedHeaders_congr res2 res accept n hacc hnd2 hnd hget
  · intro ps1 ps2 r1 r2 hp hnd1 h1 h2
    apply WriteSortedHeaders_congr r1 r2 accept n hacc
    · rw [h1]; exact foldl_mapSet_nodup ps1 [] (by simp)
    · rw [h2]; exact foldl_mapSet_nodup ps2 [] (by simp)
    · intro k
      rw [h1, h2]
      exact mapOfList_get_perm ps1 ps2 hp hnd1 k

/-- C12 at the pairs `Date: d`, `Connection: close`, `Content-Length: 10` inserted in two
orders: both maps are written as `Connection`, `Content-Length`, `Date` and the blank
line. -/
theorem WriteSortedHeaders_sorted_output_witness :
    (⟨200, [], mapOfList [(bytes "Date", bytes "d"), (bytes "Connection", bytes "close"),
        (bytes "Content-Length", bytes "10")], none, []⟩ : Response).WriteSortedHeaders
        (fun _ => true) 0 =
      ⟨[bytes "Connection: close\r\n", bytes "Content-Length: 10\r\n", bytes "Date: d\r\n",
        bytes "\r\n"], 4, none⟩ ∧
    (⟨200, [], mapOfList [(bytes "Content-Length", bytes "10"), (bytes "Date", bytes "d"),
        (bytes "Connection", bytes "close")], none, []⟩ : Response).WriteSortedHeaders
        (fun _ => true) 0 =
      ⟨[bytes "Connection: close\r\n", bytes "Content-Length: 10\r\n", bytes "Date: d\r\n",
        bytes "\r\n"], 4, none⟩ := by
  have hp : ([(bytes "Date", bytes "d"), (bytes "Connection", bytes "close"),
        (bytes "Content-Length", bytes "10")] : List (Str × Str)).Perm
      [(bytes "Content-Length", bytes "10"), (bytes "Date", bytes "d"),
        (bytes "Connection", bytes "close")] := by decide
  have h := (WriteSortedHeaders_sorted_output
    ⟨200, [], mapOfList [(bytes "Date", bytes "d"), (bytes "Connection", bytes "close"),
      (bytes "Content-Length", bytes "10")], none, []⟩ (fun _ => true) 0 (fun _ => rfl)
    (by decide)).2.2 _ _
    ⟨200, [], mapOfList [(bytes "Date", bytes "d"), (bytes "Connection", bytes "close"),
      (bytes "Content-Length", bytes "10")], none, []⟩
    ⟨200, [], mapOfList [(bytes "Content-Length", bytes "10"), (bytes "Date", bytes "d"),
      (bytes "Connection", bytes "close")], none, []⟩ hp (by decide) rfl rfl
  rw [← h]
  exact ⟨by decide, by decide⟩

/-- C13, as amended: for every response built by `HandleOK`, `HandleNotFound` or
`HandleBadRequest`, `WriteSortedHeaders` (on a writer that accepts the writes) writes one
line key, `: `, value, CRLF per header in strictly ascending order of the keys, then the
blank line; read back with the header-line grammar of `ReadRequest`, the line of a
header whose value has no colon and no white space around it gives exactly the header's
key and value, and the line of a header whose value has a colon is rejected, which is
the case of the `Date` line of every such response. -/
theorem built_headers_reparse (res : Response) (accept : Nat → Bool) (n : Nat)
    (hacc : ∀ k, accept k = true)
    (hbuilt : (∃ res0 now, res = Response.HandleBadRequest res0 now) ∨
      (∃ res0 now req, res = Response.HandleNotFound res0 now req) ∨
      (∃ res0 w now req path, Response.HandleOK res0 w now req path = Except.ok res)) :
    (∃ pairs : List (Str × Str), pairs.Perm res.Header ∧ (pairs.map Prod.fst).Sorted strLt ∧
      (res.WriteSortedHeaders accept n).out =
        pairs.map (fun p => p.1 ++ bytes ": " ++ p.2 ++ bytes "\r\n") ++ [bytes "\r\n"]) ∧
    (∀ k v, (k, v) ∈ res.Header → 58 ∉ v → TrimSpace v = v →
      parseHeaderLine (k ++ bytes ": " ++ v) = some (k, v)) ∧
    (∀ k v, (k, v) ∈ res.Header → 58 ∈ v → parseHeaderLine (k ++ bytes ": " ++ v) = none) ∧
    (∃ now, (bytes "Date", FormatTime now) ∈ res.Header ∧
      parseHeaderLine (bytes "Date" ++ bytes ": " ++ FormatTime now) = none) := by
  obtain ⟨hnd, hkeys, now, hdate⟩ := built_header res hbuilt
  refine ⟨?_, ?_, ?_, ?_⟩
  · obtain ⟨pairs, hp, hs, hw⟩ := WriteSortedHeaders_pairs res accept n hacc hnd
    exact ⟨pairs, hp, hs, by rw [hw]⟩
  · intro k v hkv hv hvt
    obtain ⟨hk, hkt⟩ := builderKeys_plain k (hkeys k v hkv)
    exact parseHeaderLine_pair k v hk hv hkt hvt
  · intro k v _ hv
    exact parseHeaderLine_colon k v hv
  · exact ⟨now, hdate, parseHeaderLine_colon _ _ (FormatTime_colon now)⟩

/-- C13 as amended, at the response `400 Bad Request` of the concrete clock reading: the
line `Connection: close` is read back as its pair, the `Date` line is rejected. -/
theorem built_headers_reparse_witness :
    parseHeaderLine (bytes "Connection: close") = some (bytes "Connection", bytes "close") ∧
    ∃ now, (bytes "Date", FormatTime now) ∈
        (({} : Response).HandleBadRequest exampleTime).Header ∧
      parseHeaderLine (bytes "Date" ++ bytes ": " ++ FormatTime now) = none := by
  have h := built_headers_reparse (({} : Response).HandleBadRequest exampleTime)
    (fun _ => true) 0 (fun _ => rfl) (Or.inl ⟨{}, exampleTime, rfl⟩)
  exact ⟨h.2.1 (bytes "Connection") (bytes "close") (by decide) (by decide) (by decide),
    h.2.2.2⟩

/-- C13 as stated fails: the header block written for the response `400 Bad Request` is
`Connection: close`, `Date: Mon, 02 Jan 2006 15:04:05 GMT` and the blank line, and
reading it back with the header-line grammar fails, the `Date` line having four parts. -/
theorem BadRequest_headers_not_reparsed :
    ((({} : Response).HandleBadRequest exampleTime).WriteSortedHeaders
        (fun _ => true) 0).out.flatten
      = bytes "Connection: close\r\nDate: Mon, 02 Jan 2006 15:04:05 GMT\r\n\r\n" ∧
    reparseHeaders ((({} : Response).HandleBadRequest exampleTime).WriteSortedHeaders
        (fun _ => true) 0).out.flatten = none ∧
    (Split (bytes "Date: Mon, 02 Jan 2006 15:04:05 GMT") 58).length = 4 := by
  decide

/-- C14, as amended: for every initial response and every clock reading `t`,
`HandleBadRequest` leaves the status code 400, the protocol `HTTP/1.1`, a header map with
exactly the keys `Date` (value `FormatTime t`) and `Connection` (value `close`), and the
`FilePath` of the initial response; when that `FilePath` is empty, as in the fresh
response of `HandleConnection`, `Write` on a writer that accepts the writes emits exactly
the status line, `Connection: close`, the `Date` line and the blank line, and no body. -/
theorem HandleBadRequest_fields (res : Response) (t : Time) (readFile : Str → Option Str)
    (accept : Nat → Bool) (n : Nat) (hacc : ∀ k, accept k = true) :
    (res.HandleBadRequest t).StatusCode = 400 ∧
    (res.HandleBadRequest t).Proto = bytes "HTTP/1.1" ∧
    (res.HandleBadRequest t).Header
      = [(bytes "Date", FormatTime t), (bytes "Connection", bytes "close")] ∧
    (res.HandleBadRequest t).FilePath = res.FilePath ∧
    (res.FilePath = [] →
      ((res.HandleBadRequest t).Write readFile accept n).out = badRequestChunks t ∧
      ((res.HandleBadRequest t).Write readFile accept n).err = none) := by
  refine ⟨rfl, rfl, rfl, rfl, ?_⟩
  intro hfp
  have hs : sortStrings [bytes "Date", bytes "Connection"] = [bytes "Connection", bytes "Date"] := by
    decide
  have hg1 : mapGet [(bytes "Date", FormatTime t), (bytes "Connection", bytes "close")]
      (bytes "Connection") = some (bytes "close") := rfl
  have hg2 : mapGet [(bytes "Date", FormatTime t), (bytes "Connection", bytes "close")]
      (bytes "Date") = some (FormatTime t) := rfl
  have hh : (res.HandleBadRequest t).Header
      = [(bytes "Date", FormatTime t), (bytes "Connection", bytes "close")] := rfl
  have hw : (res.HandleBadRequest t).Write readFile accept n =
      ⟨badRequestChunks t, n + 1 + 2 + 1, none⟩ := by
    simp only [Response.Write, Response.WriteStatusLine, Response.WriteBody,
      WriteSortedHeaders_accept _ _ _ hacc, connWrite_accept _ _ _ hacc, WriteResult.orErr,
      hh, List.map, hs, hg1, hg2, badRequestChunks]
    simp [Response.HandleBadRequest, hfp, Itoa_codes.2.1, bytes]
  rw [hw]
  exact ⟨rfl, rfl⟩

/-- C14 at the fresh response and the clock reading of the concrete environment. -/
theorem HandleBadRequest_fields_witness :
    ((({} : Response).HandleBadRequest exampleTime).Write (fun _ => none) (fun _ => true) 0).out
      = [bytes "HTTP/1.1 400 Bad Request\r\n", bytes "Connection: close\r\n",
          bytes "Date: Mon, 02 Jan 2006 15:04:05 GMT\r\n", bytes "\r\n"] := by
  rw [((HandleBadRequest_fields {} exampleTime (fun _ => none) (fun _ => true) 0
    (fun _ => rfl)).2.2.2.2 rfl).1]
  decide

/-- C14 as stated fails: on an initial response whose `FilePath` is `root/index.html`,
`HandleBadRequest` leaves that `FilePath`, and `Write` emits the file after the blank
line. -/
theorem HandleBadRequest_keeps_FilePath :
    ((⟨0, [], [], none, bytes "root/index.html"⟩ : Response).HandleBadRequest
        exampleTime).FilePath ≠ [] ∧
    (((⟨0, [], [], none, bytes "root/index.html"⟩ : Response).HandleBadRequest
        exampleTime).Write exampleWorld.ReadFile (fun _ => true) 0).out
      = [bytes "HTTP/1.1 400 Bad Request\r\n", bytes "Connection: close\r\n",
          bytes "Date: Mon, 02 Jan 2006 15:04:05 GMT\r\n", bytes "\r\n",
          bytes "0123456789"] := by
  decide

/-- C15: for every successfully parsed request whose resolution does not end in a
file-system error other than "does not exist", `HandleGoodRequest` returns a response
with the code 200 or 404, a `Date` header, the protocol of the request, and the header
`Connection`, with the value `close`, exactly when the request's `Close` is true. -/
theorem HandleGoodRequest_headers (s : Server) (w : World) (now : Time) (br : Reader)
    (r : ReadResult) (req : Request) (hr : ReadRequest br = some r) (he : r.err = none)
    (hreq : r.req = some req)
    (hstat : w.Stat (resolvedPath s req.URL) ≠ StatResult.otherErr) :
    ∃ res, s.HandleGoodRequest w now req = Except.ok res ∧
      (res.StatusCode = 200 ∨ res.StatusCode = 404) ∧
      mapGet res.Header (bytes "Date") = some (FormatTime now) ∧
      res.Proto = req.Proto ∧
      (mapGet res.Header (bytes "Connection") = some (bytes "close") ↔ req.Close = true) ∧
      (mapGet res.Header (bytes "Connection") = none ↔ req.Close = false) := by
  obtain ⟨hurl, _, _, _⟩ := ReadRequest_parsed br r req hr he hreq
  rcases HandleGoodRequest_ok_cases s w now req hurl hstat with h | ⟨size, modTime, h⟩
  · refine ⟨_, h, Or.inr rfl, ?_, rfl, ?_, ?_⟩
    · exact (mapGet_notFound req.Close (FormatTime now)).1
    · show mapGet (if req.Close = true then _ else _) _ = _ ↔ _
      rw [(mapGet_notFound req.Close (FormatTime now)).2]
      cases req.Close <;> simp
    · show mapGet (if req.Close = true then _ else _) _ = _ ↔ _
      rw [(mapGet_notFound req.Close (FormatTime now)).2]
      cases req.Close <;> simp
  · refine ⟨_, h, Or.inl rfl, ?_, rfl, ?_, ?_⟩
    · exact (mapGet_ok req.Close _ _ _ _).1
    · show mapGet (if req.Close = true then _ else _) _ = _ ↔ _
      rw [(mapGet_ok req.Close _ _ _ _).2]
      cases req.Close <;> simp
    · show mapGet (if req.Close = true then _ else _) _ = _ ↔ _
      rw [(mapGet_ok req.Close _ _ _ _).2]
      cases req.Close <;> simp

/-- C15 at the request `GET /index.html HTTP/1.1`, `Host: x`, `Connection: close` in the
concrete environment: the response has the code 200 and the header `Connection: close`. -/
theorem HandleGoodRequest_headers_witness :
    ∃ res, exampleServer.HandleGoodRequest exampleWorld exampleTime
        ⟨bytes "GET", bytes "/index.html", bytes "HTTP/1.1", [], bytes "x", true⟩
        = Except.ok res ∧
      mapGet res.Header (bytes "Date") = some (FormatTime exampleTime) ∧
      res.Proto = bytes "HTTP/1.1" ∧
      mapGet res.Header (bytes "Connection") = some (bytes "close") := by
  have hr : ReadRequest ⟨bytes "GET /index.html HTTP/1.1\r\nHost: x\r\nConnection: close\r\n\r\n",
      Err.EOF⟩ = some ⟨some ⟨bytes "GET", bytes "/index.html", bytes "HTTP/1.1", [], bytes "x",
        true⟩, true, none, ⟨[], Err.EOF⟩⟩ := by decide
  obtain ⟨res, h1, _, h3, h4, h5, _⟩ := HandleGoodRequest_headers exampleServer exampleWorld
    exampleTime _ _ _ hr rfl rfl (by decide)
  exact ⟨res, h1, h3, h4, h5.mpr rfl⟩

/-- C16: `ReadRequest` on a stream that starts with a bare CRLF. The claim asks for
`bytesReceived = true` and a nil request, since two bytes were consumed; `ReadRequest`
returns a request that is not nil, `bytesReceived = false` and `io.EOF`, with the two
bytes gone from the reader. -/
theorem ReadRequest_bare_CRLF :
    ReadRequest ⟨bytes "\r\nHost: x\r\n\r\n", Err.timeout⟩ =
      some ⟨some {}, false, some Err.EOF, ⟨bytes "Host: x\r\n\r\n", Err.timeout⟩⟩ := by
  decide

/-- C17, as amended: for every successfully parsed request whose resolution fails with a
file-system error other than "does not exist", the round of the handler's loop that
reads it writes no byte and ends with `log.Fatal`, the exit of the server process; the
handler does not get to close the connection. -/
theorem handleLoop_resolution_failure (s : Server) (w : World) (fuel : Nat) (c : Conn)
    (r : ReadResult) (req : Request) (hd : w.SetReadDeadline c.ticks = true)
    (hr : ReadRequest c.br = some r) (he : r.err = none) (hreq : r.req = some req)
    (hstat : w.Stat (resolvedPath s req.URL) = StatResult.otherErr) :
    s.HandleGoodRequest w (w.Now (c.ticks + 1)) req = Except.error Crash.fatal ∧
    handleLoop s w (fuel + 1) c = some [Event.read, Event.exit] := by
  obtain ⟨hurl, _, _, _⟩ := ReadRequest_parsed c.br r req hr he hreq
  exact ⟨HandleGoodRequest_fatal s w _ req hurl hstat,
    handleLoop_fatal s w fuel c r req hd hr he hreq hstat⟩

/-- C17 as amended, at a later round of a connection on which the request
`GET /private.html HTTP/1.1`, `Host: y`, `Connection: close` arrives, in the environment
where `os.Stat` of `root/private.html` fails with a permission error. -/
theorem handleLoop_resolution_failure_witness :
    handleLoop exampleServer deniedWorld 1
        ⟨⟨bytes "GET /private.html HTTP/1.1\r\nHost: y\r\nConnection: close\r\n\r\n",
          Err.timeout⟩, 4, 9⟩
      = some [Event.read, Event.exit] := by
  have hr : ReadRequest
      ⟨bytes "GET /private.html HTTP/1.1\r\nHost: y\r\nConnection: close\r\n\r\n", Err.timeout⟩
      = some ⟨some ⟨bytes "GET", bytes "/private.html", bytes "HTTP/1.1", [], bytes "y", true⟩,
        true, none, ⟨[], Err.timeout⟩⟩ := by decide
  exact (handleLoop_resolution_failure exampleServer deniedWorld 0
    ⟨⟨bytes "GET /private.html HTTP/1.1\r\nHost: y\r\nConnection: close\r\n\r\n",
      Err.timeout⟩, 4, 9⟩ _ _ rfl hr rfl rfl (by decide)).2

/-- C17 as stated fails: in the environment where `os.Stat` of `root/private.html` fails
with a permission error, the handler of the request `GET /private.html HTTP/1.1` ends
with the exit of the process, not with the close of the connection. -/
theorem HandleConnection_fatal_exit :
    exampleServer.HandleConnection deniedWorld
        ⟨bytes "GET /private.html HTTP/1.1\r\nHost: x\r\n\r\n", Err.EOF⟩
      = some [Event.read, Event.exit] := by
  decide

/-- C18, as amended: for every successfully parsed request with a response, if a call of
the writer made for the response is rejected, or the file to serve cannot be read,
`Response.Write` returns a non-nil error; when the request did not ask to close (its
`Close` is false), `HandleConnection` prints the error and goes on: the events of the
round are the read, the bytes accepted before the failure, and then the read of the next
request on the same connection. What follows the failed write for a request with
`Connection: close` is left out of the statement. -/
theorem handleLoop_write_failure (s : Server) (w : World) (fuel : Nat) (c : Conn)
    (r : ReadResult) (req : Request) (res : Response)
    (hd : w.SetReadDeadline c.ticks = true) (hd2 : w.SetReadDeadline (c.ticks + 1 + 1) = true)
    (hr : ReadRequest c.br = some r) (he : r.err = none) (hreq : r.req = some req)
    (hres : s.HandleGoodRequest w (w.Now (c.ticks + 1)) req = Except.ok res)
    (hf : c.br.data.length < fuel + 1 + 1)
    (hfail : (∃ k, c.writes ≤ k ∧ k < (res.Write w.ReadFile w.Write c.writes).calls ∧
        w.Write k = false) ∨ (res.FilePath ≠ [] ∧ w.ReadFile res.FilePath = none)) :
    (res.Write w.ReadFile w.Write c.writes).err ≠ none ∧
    (req.Close = false →
      ∃ rest, handleLoop s w (fuel + 1 + 1) c =
        some (Event.read ::
          ((res.Write w.ReadFile w.Write c.writes).out.map Event.write ++
            Event.read :: rest))) := by
  refine ⟨?_, fun _ => handleLoop_reads_again s w fuel c r req res hd hd2 hr he hreq hres hf⟩
  intro hnone
  obtain ⟨hacc, hfile⟩ := Write_err_none res w.ReadFile w.Write c.writes hnone
  rcases hfail with ⟨k, hk1, hk2, hk3⟩ | ⟨hfp, hrf⟩
  · rw [hacc k hk1 hk2] at hk3
    simp at hk3
  · rcases hfile with h | ⟨file, h⟩
    · exact hfp h
    · rw [hrf] at h
      simp at h

/-- C18 as amended, at the request `GET /missing HTTP/1.1`, `Host: x`, which does not ask
to close, on a connection that rejects every write: nothing is written and the handler
reads again. -/
theorem handleLoop_write_failure_witness :
    ∃ rest, handleLoop exampleServer brokenWorld 42
        ⟨⟨bytes "GET /missing HTTP/1.1\r\nHost: x\r\n\r\n", Err.EOF⟩, 0, 0⟩
      = some (Event.read :: Event.read :: rest) := by
  have hr : ReadRequest ⟨bytes "GET /missing HTTP/1.1\r\nHost: x\r\n\r\n", Err.EOF⟩ =
      some ⟨some ⟨bytes "GET", bytes "/missing", bytes "HTTP/1.1", [], bytes "x", false⟩,
        true, none, ⟨[], Err.EOF⟩⟩ := by decide
  have hres : exampleServer.HandleGoodRequest brokenWorld (brokenWorld.Now (0 + 1))
      ⟨bytes "GET", bytes "/missing", bytes "HTTP/1.1", [], bytes "x", false⟩
      = Except.ok ⟨404, bytes "HTTP/1.1", [(bytes "Date", FormatTime exampleTime)], none, []⟩ :=
    rfl
  obtain ⟨_, hgo⟩ := handleLoop_write_failure exampleServer brokenWorld 40
    ⟨⟨bytes "GET /missing HTTP/1.1\r\nHost: x\r\n\r\n", Err.EOF⟩, 0, 0⟩ _ _ _ rfl rfl hr rfl rfl
    hres (by decide) (Or.inl ⟨0, by decide, by decide, rfl⟩)
  obtain ⟨rest, h⟩ := hgo rfl
  refine ⟨rest, ?_⟩
  rw [h]
  have hout : ((⟨404, bytes "HTTP/1.1", [(bytes "Date", FormatTime exampleTime)], none, []⟩ :
      Response).Write brokenWorld.ReadFile brokenWorld.Write 0).out = [] := by decide
  simp only [hout, List.map_nil, List.nil_append]

/-- C18 as stated fails: on a connection that rejects every write, the handler of two
requests does not close after the failed response; it reads the second request, and
reads again after the second failure. -/
theorem HandleConnection_reads_after_write_error :
    exampleServer.HandleConnection brokenWorld
        ⟨bytes ("GET /index.html HTTP/1.1\r\nHost: x\r\n\r\n" ++
          "GET /missing HTTP/1.1\r\nHost: x\r\n\r\n"), Err.EOF⟩
      = some [Event.read, Event.read, Event.read, Event.close] := by
  decide

/-- C19: `HandleGoodRequest` on the target `/../secret.txt` with the document root `root`.
The claim asks that the resolved path be the document root extended by further
elements; the path is `secret.txt`, beside the document root, and the handler serves
that file. -/
theorem HandleGoodRequest_leaves_root :
    resolvedPath exampleServer (bytes "/../secret.txt") = bytes "secret.txt" ∧
    (match exampleServer.HandleGoodRequest outsideWorld exampleTime
        ⟨bytes "GET", bytes "/../secret.txt", bytes "HTTP/1.1", [], bytes "x", false⟩ with
      | Except.ok res => res.FilePath
      | Except.error _ => []) = bytes "secret.txt" ∧
    HasPrefix (bytes "secret.txt") (bytes "root") = false ∧
    exampleServer.HandleConnection outsideWorld
        ⟨bytes "GET /../secret.txt HTTP/1.1\r\nHost: x\r\n\r\n", Err.EOF⟩ =
      some [Event.read, Event.write (bytes "HTTP/1.1 200 OK\r\n"),
        Event.write (bytes "Content-Length: 6\r\n"),
        Event.write (bytes "Content-Type: application/octet-stream\r\n"),
        Event.write (bytes "Date: Mon, 02 Jan 2006 15:04:05 GMT\r\n"),
        Event.write (bytes "Last-Modified: Mon, 02 Jan 2006 15:04:05 GMT\r\n"),
        Event.write (bytes "\r\n"), Event.write (bytes "secret"),
        Event.read, Event.close] := by
  decide

/-- C20: for every outcome of `ReadRequest` the indexing of the handler is in range.
`ReadRequest` returns, and a nil error comes with a request that is not nil and has a
non-empty URL, on which `HandleGoodRequest` does not panic; and `HandleConnection`
returns a run in which no panic occurs. -/
theorem HandleConnection_no_panic (s : Server) (w : World) (br : Reader) :
    (∃ r, ReadRequest br = some r ∧
      (r.err = none → ∃ req, r.req = some req ∧ req.URL ≠ [] ∧
        ∀ now, s.HandleGoodRequest w now req ≠ Except.error Crash.panic)) ∧
    (∃ t, s.HandleConnection w br = some t ∧ Event.panic ∉ t) := by
  constructor
  · obtain ⟨r, hr, hspec⟩ := ReadRequest_spec br
    refine ⟨r, hr, ?_⟩
    intro he
    obtain ⟨_, _, req, hreq, _⟩ := hspec he
    obtain ⟨hurl, _, _, _⟩ := ReadRequest_parsed br r req hr he hreq
    exact ⟨req, hreq, hurl, fun now => HandleGoodRequest_no_panic s w now req hurl⟩
  · obtain ⟨t, ht⟩ := Option.isSome_iff_exists.mp (HandleConnection_isSome s w br)
    exact ⟨t, ht, handleLoop_no_panic s w _ _ t ht⟩

end TritonHTTP
